import Mathlib

/-!
Shallow embedding of `spark_config/config.py` (the Spark-Config declarative
configuration engine): parsed-document values, schema nodes (`Config`),
polymorphic slots (`VirtualConfig`), the type factory registry
(`ConfigFactory`) and the leaf type parser registry (`ConfigTypeParser`),
together with theorems checking the specification's claims about them.

Python-side raising is modelled with `Except`; mutable state is modelled by
returning the updated value.  Recursion over parsed documents follows the
source's recursion; since it is not structural (a `VirtualConfig.update`
re-enters `Config.update` on the same subtree), the recursive engine
functions take a fuel argument and are structurally recursive on it, so
that they evaluate by `rfl` on concrete inputs.  Fuel is consumed once per
engine call, not per list element, so required fuel is proportional to the
nesting depth of the document.
-/

namespace SparkCfg

/-- The Python exception kinds the embedded code can raise. -/
inductive PyErr where
  | valueError
  | typeError
  | attributeError
  | keyError
  | indexError
deriving DecidableEq, Repr

/-- Errors of an embedded engine computation: a Python exception, or fuel
exhaustion (a model artifact: the Python code terminates on all finite
documents, fuel only bounds the modelled recursion depth). -/
inductive UErr where
  | fuelOut
  | py (e : PyErr)
deriving DecidableEq, Repr

/-- A parsed YAML/JSON-like document tree: scalars, sequences, mappings.
Floats are modelled as rationals (the engine never does float arithmetic,
it only stores and compares values; every literal appearing in the
repository is an exact decimal). Mapping keys are strings, kept in
insertion order as Python dicts do. -/
inductive PyVal where
  | null
  | int (n : Int)
  | float (q : Rat)
  | str (s : String)
  | list (xs : List PyVal)
  | dict (kvs : List (String × PyVal))

/-- Association-list lookup, keyed by string: Python `d[k]` / `k in d`. -/
def alookup {α : Type _} : List (String × α) → String → Option α
  | [], _ => none
  | (k, v) :: rest, key => if k = key then some v else alookup rest key

/-- Replace the value stored under `key` if present (Python assignment to an
existing attribute or dict key); leaves the list unchanged otherwise. -/
def aset {α : Type _} : List (String × α) → String → α → List (String × α)
  | [], _, _ => []
  | (k, v) :: rest, key, w =>
    if k = key then (k, w) :: rest else (k, v) :: aset rest key w

/-- Python dict assignment `d[k] = v`: replace if the key exists, else
append (insertion order). -/
def dset {α : Type _} (kvs : List (String × α)) (key : String) (w : α) :
    List (String × α) :=
  match alookup kvs key with
  | some _ => aset kvs key w
  | none => kvs ++ [(key, w)]

/-- Truncation toward zero, Python `int()` applied to a float. -/
def ratTrunc (q : Rat) : Int :=
  if q < 0 then -((-q).floor) else q.floor

/-- Numeric value of a digit list (to be guarded by digit checks). -/
def digitsVal (cs : List Char) : Nat :=
  cs.foldl (fun n c => n * 10 + (c.toNat - 48)) 0

/-- A nonempty all-digit character list, as a natural number. -/
def digitsToNat (cs : List Char) : Option Nat :=
  if cs.isEmpty then none
  else if cs.all Char.isDigit then some (digitsVal cs)
  else none

/-- Strip an optional leading sign, returning the sign and the rest. -/
def stripSign : List Char → Int × List Char
  | '-' :: r => (-1, r)
  | '+' :: r => (1, r)
  | r => (1, r)

/-- Python `int()` applied to a string: an optional sign followed by digits
(Python additionally strips whitespace and underscores, which no input in
this repository uses); anything else raises `ValueError` — in particular
`int("2.0")` raises. -/
def pyIntStr (s : String) : Except PyErr Int :=
  let (sgn, cs) := stripSign s.data
  match digitsToNat cs with
  | some n => .ok (sgn * (n : Int))
  | none => .error .valueError

/-- Python `float()` applied to a string: optional sign, digits, optional
point and fraction digits, at least one digit overall (the exponent / inf
/ nan forms Python also accepts are not used anywhere in this
repository). -/
def pyFloatStr (s : String) : Except PyErr Rat :=
  let (sgn, cs) := stripSign s.data
  let ip := cs.takeWhile (fun c => c ≠ '.')
  match cs.dropWhile (fun c => c ≠ '.') with
  | [] =>
    match digitsToNat ip with
    | some n => .ok ((sgn * (n : Int) : Int) : Rat)
    | none => .error .valueError
  | _ :: fp =>
    -- "2." and ".5" are valid floats, "." and "1.2.3" are not
    if fp.contains '.' then .error .valueError
    else if ip.isEmpty && fp.isEmpty then .error .valueError
    else if ip.all Char.isDigit && fp.all Char.isDigit then
      .ok (mkRat (sgn * (digitsVal (ip ++ fp) : Int)) (10 ^ fp.length))
    else .error .valueError

/-- Python `int(value)` on a parsed document value. -/
def pyIntOf : PyVal → Except PyErr Int
  | .int n => .ok n
  | .float q => .ok (ratTrunc q)
  | .str s => pyIntStr s
  | _ => .error .typeError

/-- Python `float(value)` on a parsed document value. -/
def pyFloatOf : PyVal → Except PyErr Rat
  | .int n => .ok (n : Rat)
  | .float q => .ok q
  | .str s => pyFloatStr s
  | _ => .error .typeError

/-- Decimal rendering of a rational standing in for a Python float; exact
for integral values (`str(5.0) = "5.0"`), schematic otherwise (no claim
coerces a non-integral float to a string). -/
def ratStr (q : Rat) : String :=
  if q.den = 1 then toString q.num ++ ".0"
  else toString q.num ++ "/" ++ toString q.den

/-- Python `str(value)`: total.  The container renderings are schematic
(no code path in the repository coerces a container or null to `str`). -/
def pyStrOf : PyVal → String
  | .str s => s
  | .int n => toString n
  | .float q => ratStr q
  | .null => "None"
  | .list _ => "<list>"
  | .dict _ => "<dict>"

/-- The custom per-field `yaml_converter` functions occurring in the
repository, defunctionalized so that schemas remain comparable data.
`floorInt` is the tests' `lambda x: int(math.floor(float(x)))`. -/
inductive ConverterId where
  | floorInt
deriving DecidableEq, Repr

/-- Run a defunctionalized `yaml_converter`. -/
def applyConverter : ConverterId → PyVal → Except PyErr PyVal
  | .floorInt, v => (pyFloatOf v).map (fun q => .int q.floor)

mutual

/-- The declared annotation of a dataclass field, as far as the engine
inspects it: the three registered scalar parser types, `typing.Any`
(used for `config_field` slots and duck-typed fields), a nested `Config`
subclass, or `List[C]` for a `Config` subclass `C`.  Other annotations
(e.g. `List[int]`, `Optional[...]`) appear in the repository only on
fields the engine treats as unregistered leaves and are not modelled. -/
inductive FieldType where
  | fInt
  | fFloat
  | fStr
  | fAny
  | fConfig (s : Schema)
  | fConfigList (elem : Schema)

/-- A dataclass field: name, annotation, the `virtual_config` metadata
flag set by `config_field`, the optional `yaml_converter` metadata, and
the default (`none` when the field has neither `default` nor
`default_factory`, so that no-argument construction raises `TypeError`). -/
inductive FieldDecl where
  | mk (name : String) (ty : FieldType) (virtualCfg : Bool)
      (converter : Option ConverterId) (default : Option CVal)

/-- A `Config` dataclass: its class name and ordered fields. -/
inductive Schema where
  | mk (name : String) (fields : List FieldDecl)

/-- A runtime Python value held in a config field:
* `raw` — any plain document value (scalar, list, dict);
* `cfg` — an instance of a `Config` dataclass (its class and its current
  field values, in field order);
* `clist` — a Python list whose elements are engine-built config
  instances (what `_parse_yaml_list` produces);
* `virt` — a `VirtualConfig`: `category`, `required`, `_type` (the
  resolved type tag) and `_config` (the owned instance, `none` when
  unresolved). -/
inductive CVal where
  | raw (p : PyVal)
  | cfg (s : Schema) (vals : List (String × CVal))
  | clist (xs : List CVal)
  | virt (category : String) (required : Bool) (vtype : Option String)
      (vcfg : Option CVal)

end

namespace FieldDecl

def name : FieldDecl → String
  | .mk n _ _ _ _ => n

def ty : FieldDecl → FieldType
  | .mk _ t _ _ _ => t

def virtualCfg : FieldDecl → Bool
  | .mk _ _ b _ _ => b

def converter : FieldDecl → Option ConverterId
  | .mk _ _ _ c _ => c

def default : FieldDecl → Option CVal
  | .mk _ _ _ _ d => d

end FieldDecl

namespace Schema

def name : Schema → String
  | .mk n _ => n

def fields : Schema → List FieldDecl
  | .mk _ fs => fs

end Schema

/-- `isinstance(v, Config)`. -/
def isCfgVal : CVal → Bool
  | .cfg _ _ => true
  | _ => false

/-- `isinstance(v, VirtualConfig)`. -/
def isVirtVal : CVal → Bool
  | .virt _ _ _ _ => true
  | _ => false

/-- `isinstance(v, list)` on a runtime field value: an engine-built config
list or a plain document list. -/
def isListVal : CVal → Bool
  | .clist _ => true
  | .raw (.list _) => true
  | _ => false

/-- Whether a plain document value is a Python list. -/
def isListP : PyVal → Bool
  | .list _ => true
  | _ => false

/-- Default-construct the field values of a dataclass: each field's
default, failing (Python `TypeError` on `cls()`) if any field lacks one. -/
def mkDefaultFields : List FieldDecl → Option (List (String × CVal))
  | [] => some []
  | fd :: rest =>
    match fd.default with
    | none => none
    | some v => (mkDefaultFields rest).map (fun tl => (fd.name, v) :: tl)

/-- Default-construct a `Config` dataclass: `cls()`. -/
def mkDefault (s : Schema) : Option CVal :=
  (mkDefaultFields s.fields).map (fun vs => .cfg s vs)

/-- `ConfigTypeParser.parse(field_type, field, value, strict=True)`: the
registry holds exactly the three parsers registered at import time (for
`int`, `float`, `str`, each `T(value) if strict else value` with `strict`
always true on this call path); any other type is absent from the registry
and the value passes through unchanged. -/
def typeParse (ty : FieldType) (v : PyVal) : Except PyErr PyVal :=
  match ty with
  | .fInt => (pyIntOf v).map .int
  | .fFloat => (pyFloatOf v).map .float
  | .fStr => .ok (.str (pyStrOf v))
  | _ => .ok v

/-- The body of `Config._parse_yaml_leaf` up to `setattr`: apply the
field's `yaml_converter` if declared, else the registry parse when
`strict`; the raw value passes through untouched otherwise. -/
def parseLeafVal (fd : FieldDecl) (v : PyVal) (strict : Bool) :
    Except PyErr PyVal :=
  match fd.converter with
  | some c => applyConverter c v
  | none => if strict then typeParse fd.ty v else .ok v

/-- `_sequence_iter(yaml_field)`: elements of a list, values of a mapping,
nothing for any other value. -/
def sequenceIter : PyVal → List PyVal
  | .list xs => xs
  | .dict kvs => kvs.map (fun kv => kv.2)
  | _ => []

/-- A diagnostic logged by the engine (via `Logger`); payloads keep the
data interpolated into the source's log messages. -/
inductive Diag where
  /-- `Config.update`: "Invalid config data provided to {self}". -/
  | invalidConfigData (schemaName : String)
  /-- `Config.update`: "Missing {global_name} when parsing config!". -/
  | missingField (path : String)
  /-- `Config._parse_yaml_leaf`: "Skipping invalid YAML when parsing
  {type(self)} at '{global_name}' ({field.type}): {e}". -/
  | skipInvalidLeaf (schemaName path : String) (ty : FieldType) (e : PyErr)
  /-- `Config._parse_yaml_list`: "Could not init {field.type} at
  '{global_name}': {e}". -/
  | couldNotInit (elemSchemaName path : String)
  /-- `VirtualConfig.update`: "Could not get type for {self} from ...". -/
  | noTypeForVirtual (category : String)
  /-- `ConfigFactory.create`: "No configs registered under category
  '{category}'!". -/
  | noCategory (category : String)
  /-- `ConfigFactory.create`: "Config '{name}' not registered under
  category '{category}'!". -/
  | nameNotRegistered (category : String) (name : Option String)

abbrev Diags := List Diag

/-- The `ConfigFactory` Borg state.  `factories` maps category, then tag,
to the registered schema; `lookupT` is the reverse map keyed by
`str(config_type)` (modelled by the class name) giving `(category, tag)`;
`constructors` maps category, then `str(config_type)`, to the registered
post-construction function (defunctionalized to its name). -/
structure Registry where
  factories : List (String × List (String × Schema))
  lookupT : List (String × (String × String))
  constructors : List (String × List (String × String))

/-- `ConfigFactory.register(config_type, category, name, constructor)`:
`name` defaults to the class name when absent or empty (the decorator
passes `name=""` through, and `name if name else config_type.__name__`
treats both as missing). -/
def factoryRegister (reg : Registry) (sch : Schema) (category : String)
    (name : Option String) (constructor : Option String) : Registry :=
  let n := match name with
    | some s => if s = "" then sch.name else s
    | none => sch.name
  let catF := (alookup reg.factories category).getD []
  let factories := dset reg.factories category (dset catF n sch)
  let lookupT := dset reg.lookupT sch.name (category, n)
  let constructors :=
    match constructor with
    | some c =>
      let catC := (alookup reg.constructors category).getD []
      dset reg.constructors category (dset catC sch.name c)
    | none => reg.constructors
  ⟨factories, lookupT, constructors⟩

/-- The empty factory state. -/
def Registry.empty : Registry := ⟨[], [], []⟩

/-- `ConfigFactory.create(category, name)` with no extra arguments:
returns the default-constructed registered type, or `None` with a logged
diagnostic for an unknown category or tag; a registered type that cannot
be default-constructed propagates Python's `TypeError`.  A `None` tag is
never a registered key (`name not in category_factories`). -/
def factoryCreate (reg : Registry) (category : String)
    (name : Option String) : Except PyErr (Option CVal × Diags) :=
  match alookup reg.factories category with
  | none => .ok (none, [.noCategory category])
  | some catF =>
    match name with
    | none => .ok (none, [.nameNotRegistered category none])
    | some n =>
      match alookup catF n with
      | none => .ok (none, [.nameNotRegistered category (some n)])
      | some sch =>
        match mkDefault sch with
        | none => .error .typeError
        | some c => .ok (some c, [])

/-- `ConfigFactory.get_info(cls_instance)`: reverse lookup by type. -/
def getInfo (reg : Registry) (schemaName : String) :
    Option (String × String) :=
  alookup reg.lookupT schemaName

/-- `ConfigFactory.get_constructor(category, name)`: `None` when the
category or tag is unknown to `factories`; otherwise the source reads
`instance._constructors[category][typename]` without guarding either
subscript, so a registered type without a registered constructor raises
`KeyError`. -/
def getConstructor (reg : Registry) (category : String) (name : String) :
    Except PyErr (Option String) :=
  match alookup reg.factories category with
  | none => .ok none
  | some catF =>
    match alookup catF name with
    | none => .ok none
    | some sch =>
      match alookup reg.constructors category with
      | none => .error .keyError
      | some catC =>
        match alookup catC sch.name with
        | none => .error .keyError
        | some ctor => .ok (some ctor)

/-- `VirtualConfig._create(typename, validate)` acting on the slot state
`(category, required, vtype, vcfg)`: chooses the effective name (an empty
`typename` string is falsy in Python and falls back to `self._type`),
raises `ValueError` when no name is available for a required slot under
validation, otherwise stores `ConfigFactory.create`'s result (possibly
`None`) and the name.  Returns the new `(vtype, vcfg)` and diagnostics. -/
def virtualCreate (reg : Registry) (category : String) (required : Bool)
    (vtype : Option String) (typename : Option String) (validate : Bool) :
    Except PyErr (Option String × Option CVal × Diags) :=
  let name : Option String :=
    match typename with
    | some s => if s = "" then vtype else some s
    | none => vtype
  if name = none ∧ required ∧ validate then .error .valueError
  else
    match factoryCreate reg category name with
    | .error e => .error e
    | .ok (c, d) => .ok (name, c, d)

/-- The `for field in dataclasses.fields(self)` loop: thread a state
through `step` over the fields, propagating raised exceptions. -/
def updLoop {σ : Type _} (step : FieldDecl → σ → Except UErr σ) :
    List FieldDecl → σ → Except UErr σ
  | [], st => .ok st
  | fd :: rest, st =>
    match step fd st with
    | .error e => .error e
    | .ok st' => updLoop step rest st'

/-- The `for idx, subconfig in enumerate(...)` loop of
`_parse_yaml_list`: indexed fold, propagating raised exceptions. -/
def listLoop {σ : Type _} (step : Nat → PyVal → σ → Except UErr σ) :
    Nat → List PyVal → σ → Except UErr σ
  | _, [], st => .ok st
  | i, e :: rest, st =>
    match step i e st with
    | .error err => .error err
    | .ok st' => listLoop step (i + 1) rest st'

mutual

/-- `Config.update(self, config, strict, warn_missing, _parent)` on an
instance `(s, vals)`: a non-mapping input is logged and ignored; a mapping
is folded over the declared fields.  Returns the new field values and the
logged diagnostics. -/
def configUpdate (reg : Registry) : Nat → Bool → Bool → String → Schema →
    List (String × CVal) → PyVal → Except UErr (List (String × CVal) × Diags)
  | 0, _, _, _, _, _, _ => .error .fuelOut
  | f + 1, strict, warn, parent, s, vals, y =>
    match y with
    | .dict kvs =>
      updLoop (fun fd st => updateField reg f strict warn parent s kvs fd st)
        s.fields (vals, [])
    | _ => .ok (vals, [.invalidConfigData s.name])

/-- One iteration of `Config.update`'s field loop: skip (optionally
warning) when the field is absent from the input; otherwise dispatch on
the current value and field metadata exactly as the source does —
`prev.update(...)` for `Config` values or `virtual_config` fields,
`_parse_yaml_list` for a list value with a `List[Config]` annotation
(`_is_config_list` subscripts `typing.get_args(field.type)[0]`, an
`IndexError` on the non-generic annotations modelled here), and
`_parse_yaml_leaf` otherwise. -/
def updateField (reg : Registry) : Nat → Bool → Bool → String → Schema →
    List (String × PyVal) → FieldDecl → List (String × CVal) × Diags →
    Except UErr (List (String × CVal) × Diags)
  | 0, _, _, _, _, _, _, _ => .error .fuelOut
  | f + 1, strict, warn, parent, s, kvs, fd, (vals, ds) =>
    let gname := if parent = "" then fd.name else parent ++ "/" ++ fd.name
    match alookup kvs fd.name with
    | none => .ok (vals, ds ++ if warn then [.missingField gname] else [])
    | some fc =>
      match alookup vals fd.name with
      | none => .error (.py .attributeError)
      | some prev =>
        if isCfgVal prev || fd.virtualCfg then
          match prev with
          | .cfg s2 v2 =>
            match configUpdate reg f strict warn gname s2 v2 fc with
            | .error e => .error e
            | .ok (v2', d') => .ok (aset vals fd.name (.cfg s2 v2'), ds ++ d')
          | .virt cat req t vc =>
            match virtualUpdate reg f strict warn gname cat req t vc fc with
            | .error e => .error e
            | .ok (v', d') => .ok (aset vals fd.name v', ds ++ d')
          | _ => .error (.py .attributeError)
        else if isListVal prev then
          match fd.ty with
          | .fConfigList es =>
            match parseYamlList reg f strict warn gname es (sequenceIter fc) with
            | .error e => .error e
            | .ok (xs, d') => .ok (aset vals fd.name (.clist xs), ds ++ d')
          | _ => .error (.py .indexError)
        else
          match parseLeafVal fd fc strict with
          | .ok v => .ok (aset vals fd.name (.raw v), ds)
          | .error e => .ok (vals, ds ++ [.skipInvalidLeaf s.name gname fd.ty e])

/-- `VirtualConfig.update(self, config_data, strict, warn_missing,
_parent)` on slot state `(cat, req, vtype, vcfg)`.  A present, non-null,
non-mapping input raises `ValueError`; a null input passes that guard and
then raises `AttributeError` at `config_data.get("type", self._type)`.
For a mapping: resolve the effective tag (a `"type"` key that is null is
treated as an absent tag), log an error when a required slot has no tag,
re-create the owned instance when missing or when the tag changed, and
recurse into it with the full mapping when the mapping is nonempty. -/
def virtualUpdate (reg : Registry) : Nat → Bool → Bool → String → String →
    Bool → Option String → Option CVal → PyVal →
    Except UErr (CVal × Diags)
  | 0, _, _, _, _, _, _, _, _ => .error .fuelOut
  | f + 1, strict, warn, parent, cat, req, vtype, vcfg, y =>
    match y with
    | .dict kvs =>
      let typename : Option String :=
        match alookup kvs "type" with
        | some (.str s) => some s
        | some _ => none
        | none => vtype
      let d1 : Diags := if typename.isNone && req then [.noTypeForVirtual cat] else []
      let typeChanged := typename.isSome && vtype != typename
      match (if vcfg.isNone || typeChanged then
              virtualCreate reg cat req vtype typename true
            else .ok (vtype, vcfg, [])) with
      | .error e => .error (.py e)
      | .ok (t', vc', d2) =>
        match vc', kvs with
        | some (.cfg s2 v2), _ :: _ =>
          match configUpdate reg f strict warn parent s2 v2 (.dict kvs) with
          | .error e => .error e
          | .ok (v2', d3) =>
            .ok (.virt cat req t' (some (.cfg s2 v2')), d1 ++ d2 ++ d3)
        | some (.cfg s2 v2), [] =>
          .ok (.virt cat req t' (some (.cfg s2 v2)), d1 ++ d2)
        | some _, _ :: _ => .error (.py .attributeError)
        | some other, [] => .ok (.virt cat req t' (some other), d1 ++ d2)
        | none, _ => .ok (.virt cat req t' none, d1 ++ d2)
    | .null => .error (.py .attributeError)
    | _ => .error (.py .valueError)

/-- `Config._parse_yaml_list(field, field_config, global_name, ...)` for
element schema `es`, applied to the already-extracted `_sequence_iter`
elements: default-construct `es` for each element and update it with the
element's subtree.  Construction failure logs `Could not init` and breaks
the loop (construction is deterministic here, so the break can only
happen before the first element, leaving the parsed list empty as in the
source). -/
def parseYamlList (reg : Registry) : Nat → Bool → Bool → String → Schema →
    List PyVal → Except UErr (List CVal × Diags)
  | 0, _, _, _, _, _ => .error .fuelOut
  | f + 1, strict, warn, gname, es, elems =>
    match elems with
    | [] => .ok ([], [])
    | _ :: _ =>
      match mkDefault es with
      | none => .ok ([], [.couldNotInit es.name gname])
      | some (.cfg s2 dv) =>
        listLoop (fun i sub st =>
            match configUpdate reg f strict warn
                (gname ++ "[" ++ toString i ++ "]") s2 dv sub with
            | .error e => .error e
            | .ok (v', d') => .ok (st.1 ++ [CVal.cfg s2 v'], st.2 ++ d'))
          0 elems ([], [])
      | some _ => .error (.py .attributeError)

end

/-- Keep a list of per-field dump results only if every field dumped to a
plain document value. -/
def collectFields : List (String × Option PyVal) → Option (List (String × PyVal))
  | [] => some []
  | (n, some p) :: rest => (collectFields rest).map (fun tl => (n, p) :: tl)
  | (_, none) :: _ => none

mutual

/-- `dataclasses.asdict` applied to one field value: dataclass instances
become dicts recursively, plain values are (deep-)copied.  A
`VirtualConfig` is not a dataclass and survives as a live object inside
the produced tree — not a plain document value, modelled as `none` (the
subsequent `yaml.safe_dump` would fail on it). -/
def asdictVal : Nat → CVal → Except UErr (Option PyVal)
  | 0, _ => .error .fuelOut
  | f + 1, v =>
    match v with
    | .raw p => .ok (some p)
    | .cfg _ vals =>
      match asdictFields f vals with
      | .error e => .error e
      | .ok l => .ok ((collectFields l).map .dict)
    | .clist xs =>
      match asdictList f xs with
      | .error e => .error e
      | .ok l => .ok (l.map .list)
    | .virt _ _ _ _ => .ok none

/-- `asdict` over a dataclass's fields, per-field. -/
def asdictFields : Nat → List (String × CVal) →
    Except UErr (List (String × Option PyVal))
  | 0, _ => .error .fuelOut
  | f + 1, vals => vals.mapM (fun nv => (asdictVal f nv.2).map (fun p => (nv.1, p)))

/-- `asdict` over a list value's elements. -/
def asdictList : Nat → List CVal → Except UErr (Option (List PyVal))
  | 0, _ => .error .fuelOut
  | f + 1, xs =>
    match xs.mapM (fun x => asdictVal f x) with
    | .error e => .error e
    | .ok l => .ok (l.mapM id)

end

/-- `if add_type and info: values["type"] = info[1]` — the `type` key is
new in the `asdict` output, so assignment appends it. -/
def withTypeKey (addType : Bool) (info : Option (String × String))
    (base : List (String × Option PyVal)) : List (String × Option PyVal) :=
  match addType, info with
  | true, some i => base ++ [("type", some (.str i.2))]
  | _, _ => base

mutual

/-- `Config.dump(self, add_type)`: start from `dataclasses.asdict(self)`,
optionally append the registered `type` tag from the factory's reverse
lookup, then override `virtual_config`-flagged and `Config`-valued fields
with their own `dump` (the source comment: `asdict` won't dispatch
`dump`; list fields are therefore left as `asdict` produced them).
Returns the produced document (or `none` if a `VirtualConfig` object
survived inside a list field) together with the — possibly mutated by
slot resolution — field values. -/
def configDump (reg : Registry) : Nat → Bool → Schema →
    List (String × CVal) →
    Except UErr (Option PyVal × List (String × CVal))
  | 0, _, _, _ => .error .fuelOut
  | f + 1, addType, s, vals =>
    match asdictFields f vals with
    | .error e => .error e
    | .ok base0 =>
      match updLoop (fun fd st => dumpField reg f fd st) s.fields
          (withTypeKey addType (getInfo reg s.name) base0, vals) with
      | .error e => .error e
      | .ok (b', vs') => .ok ((collectFields b').map .dict, vs')

/-- One iteration of `Config.dump`'s override loop: a `virtual_config`
field delegates to the slot's dump (`add_type=True` when the field holds
a bare `Config` rather than a `VirtualConfig`); a `Config`-valued field
recurses with `add_type=False`; everything else keeps its `asdict`
form. -/
def dumpField (reg : Registry) : Nat → FieldDecl →
    List (String × Option PyVal) × List (String × CVal) →
    Except UErr (List (String × Option PyVal) × List (String × CVal))
  | 0, _, _ => .error .fuelOut
  | f + 1, fd, (b, vs) =>
    match alookup vs fd.name with
    | none => .ok (b, vs)
    | some fv =>
      if fd.virtualCfg then
        match fv with
        | .virt c r t vc =>
          match virtualDump reg f c r t vc with
          | .error e => .error e
          | .ok (d, v') => .ok (aset b fd.name d, aset vs fd.name v')
        | .cfg s2 v2 =>
          match configDump reg f true s2 v2 with
          | .error e => .error e
          | .ok (d, v2') => .ok (aset b fd.name d, aset vs fd.name (.cfg s2 v2'))
        | _ => .error (.py .attributeError)
      else
        match fv with
        | .cfg s2 v2 =>
          match configDump reg f false s2 v2 with
          | .error e => .error e
          | .ok (d, v2') => .ok (aset b fd.name d, aset vs fd.name (.cfg s2 v2'))
        | _ => .ok (b, vs)

/-- `VirtualConfig.dump()`: if unresolved, first attempt a non-validating
`_create` — a side effect that stores the created instance — and return
Python `None` when the slot still has no instance; otherwise dump the
owned instance and set its `type` key to the resolved tag.  Returns the
document and the (possibly changed) slot state. -/
def virtualDump (reg : Registry) : Nat → String → Bool → Option String →
    Option CVal → Except UErr (Option PyVal × CVal)
  | 0, _, _, _, _ => .error .fuelOut
  | f + 1, cat, req, vtype, vcfg =>
    match vcfg with
    | none =>
      match virtualCreate reg cat req vtype none false with
      | .error e => .error (.py e)
      | .ok (t', c', _) =>
        match c' with
        | none => .ok (some .null, .virt cat req t' none)
        | some (.cfg s2 v2) => virtualDumpInner reg f cat req t' s2 v2
        | some _ => .error (.py .attributeError)
    | some (.cfg s2 v2) => virtualDumpInner reg f cat req vtype s2 v2
    | some _ => .error (.py .attributeError)

/-- The resolved half of `VirtualConfig.dump()`: `values =
self._config.dump(); values["type"] = self._type`. -/
def virtualDumpInner (reg : Registry) : Nat → String → Bool →
    Option String → Schema → List (String × CVal) →
    Except UErr (Option PyVal × CVal)
  | 0, _, _, _, _, _ => .error .fuelOut
  | f + 1, cat, req, t, s2, v2 =>
    match configDump reg f false s2 v2 with
    | .error e => .error e
    | .ok (d, v2') =>
      let tagVal : PyVal := match t with
        | some tg => .str tg
        | none => .null
      let d' : Option PyVal :=
        match d with
        | some (.dict l) => some (.dict (dset l "type" tagVal))
        | other => other
      .ok (d', .virt cat req t (some (.cfg s2 v2')))

end

/-- Python `==` on plain document values: numeric cross-type equality
(`2 == 2.0`), elementwise sequences, key-based mappings (mapping keys are
unique, and the engine never reorders a stored mapping, so the key-lookup
comparison matches Python's order-insensitive dict equality). -/
def pyValEqF : Nat → PyVal → PyVal → Bool
  | 0, _, _ => false
  | f + 1, a, b =>
    match a, b with
    | .null, .null => true
    | .int n, .int m => n == m
    | .int n, .float q => ((n : Rat) == q)
    | .float q, .int n => (q == (n : Rat))
    | .float p, .float q => p == q
    | .str s, .str t => s == t
    | .list xs, .list ys =>
      xs.length == ys.length && (xs.zip ys).all (fun pr => pyValEqF f pr.1 pr.2)
    | .dict xs, .dict ys =>
      xs.length == ys.length &&
        xs.all (fun kv =>
          match alookup ys kv.1 with
          | some w => pyValEqF f kv.2 w
          | none => false)
    | _, _ => false

/-- Python `==` on runtime config values.  `VirtualConfig.__eq__` returns
`self._config == other` when an instance is owned and `False` otherwise;
a comparison whose left side is not a `VirtualConfig` reaches the slot
through Python's reflected-operand fallback (dataclass `__eq__` returns
`NotImplemented` across classes), which produces the same dispatch.
Dataclass equality compares class identity (schemas are uniquely named
here) and field values pairwise.  An engine-built config list equals a
plain list only when both are empty: its elements are config instances,
never equal to plain document values. -/
def pyEqF : Nat → CVal → CVal → Bool
  | 0, _, _ => false
  | f + 1, a, b =>
    match a, b with
    | .virt _ _ _ none, _ => false
    | .virt _ _ _ (some c), other => pyEqF f c other
    | other, .virt _ _ _ none =>
      -- keep the non-virt/virt dispatch total; `other` is not a slot here
      match other with
      | _ => false
    | other, .virt _ _ _ (some c) => pyEqF f other c
    | .cfg s1 v1, .cfg s2 v2 =>
      s1.name == s2.name && v1.length == v2.length &&
        (v1.zip v2).all (fun pr => pr.1.1 == pr.2.1 && pyEqF f pr.1.2 pr.2.2)
    | .clist xs, .clist ys =>
      xs.length == ys.length && (xs.zip ys).all (fun pr => pyEqF f pr.1 pr.2)
    | .clist xs, .raw (.list ps) => xs.isEmpty && ps.isEmpty
    | .raw (.list ps), .clist xs => ps.isEmpty && xs.isEmpty
    | .raw p, .raw q => pyValEqF f p q
    | _, _ => false

/-- Python equality as a proposition: equal at some (hence, by fuel
monotonicity of the engine, any sufficiently large) recursion depth. -/
def cvalEq (a b : CVal) : Prop := ∃ f, pyEqF f a b = true

/-- `Config.load(cls, filepath)` after parsing: `cls()` then
`instance.update(document)`; constructing a schema without defaults
raises `TypeError`. -/
def configLoad (reg : Registry) (fuel : Nat) (strict warn : Bool)
    (s : Schema) (doc : PyVal) : Except UErr (CVal × Diags) :=
  match mkDefaultFields s.fields with
  | none => .error (.py .typeError)
  | some dv =>
    match configUpdate reg fuel strict warn "" s dv doc with
    | .error e => .error e
    | .ok (v, d) => .ok (.cfg s v, d)

/-- `Config.load(type(x), x.save(path))` with the file round-trip elided
(the document parser/serializer is out of scope per the specification):
dump the instance and load a fresh instance of the same type from the
resulting document.  A document still containing a live `VirtualConfig`
object cannot be serialized (`yaml.safe_dump` raises
`RepresenterError`, modelled as a `TypeError`-class failure). -/
def saveLoad (reg : Registry) (fuel : Nat) (s : Schema)
    (vals : List (String × CVal)) : Except UErr (CVal × Diags) :=
  match configDump reg fuel false s vals with
  | .error e => .error e
  | .ok (some doc, _) => configLoad reg fuel true false s doc
  | .ok (none, _) => .error (.py .typeError)

/-- Whether a plain document value is a Python mapping. -/
def isDictP : PyVal → Bool
  | .dict _ => true
  | _ => false

/-! ### Association-list lemmas -/

theorem alookup_aset_self {α : Type _} (l : List (String × α)) (k : String)
    (v : α) :
    alookup (aset l k v) k = (alookup l k).map (fun _ => v) := by
  induction l with
  | nil => simp [aset, alookup]
  | cons hd tl ih =>
    obtain ⟨k', v'⟩ := hd
    by_cases h : k' = k
    · subst h; simp [aset, alookup]
    · simp [aset, alookup, h, ih]

theorem alookup_aset_ne {α : Type _} (l : List (String × α)) (k : String)
    (v : α) (key : String) (hne : key ≠ k) :
    alookup (aset l k v) key = alookup l key := by
  induction l with
  | nil => simp [aset]
  | cons hd tl ih =>
    obtain ⟨k', v'⟩ := hd
    by_cases h : k' = k
    · subst h
      have h' : k' ≠ key := fun hk => hne hk.symm
      simp [aset, alookup, h']
    · simp [aset, alookup, h, ih]

theorem alookup_append {α : Type _} (l1 l2 : List (String × α)) (k : String) :
    alookup (l1 ++ l2) k =
      match alookup l1 k with
      | some v => some v
      | none => alookup l2 k := by
  induction l1 with
  | nil => simp [alookup]
  | cons hd tl ih =>
    obtain ⟨k', v'⟩ := hd
    by_cases h : k' = k <;> simp [alookup, h, ih]

theorem aset_keys {α : Type _} (l : List (String × α)) (k : String) (v : α) :
    (aset l k v).map Prod.fst = l.map Prod.fst := by
  induction l with
  | nil => simp [aset]
  | cons hd tl ih =>
    obtain ⟨k', v'⟩ := hd
    by_cases h : k' = k <;> simp [aset, h, ih]

theorem alookup_eq_none_of_not_mem {α : Type _} (l : List (String × α))
    (k : String) (h : k ∉ l.map Prod.fst) : alookup l k = none := by
  induction l with
  | nil => rfl
  | cons hd tl ih =>
    obtain ⟨k', v'⟩ := hd
    simp only [List.map_cons, List.mem_cons, not_or] at h
    simp only [alookup, if_neg (fun hk : k' = k => h.1 hk.symm)]
    exact ih h.2

/-! ### Shared concrete schemas (the repository's test fixtures) -/

/-- The tests' `Foo` config: `a: float = 5.0, b: int = 2, c: str = "hello"`. -/
def fooS : Schema := .mk "Foo" [
  .mk "a" .fFloat false none (some (.raw (.float 5))),
  .mk "b" .fInt false none (some (.raw (.int 2))),
  .mk "c" .fStr false none (some (.raw (.str "hello")))]

/-- The tests' `Bar` config: `bar: str = "world", d: int = 15`. -/
def barS : Schema := .mk "Bar" [
  .mk "bar" .fStr false none (some (.raw (.str "world"))),
  .mk "d" .fInt false none (some (.raw (.int 15)))]

/-- The tests' `Parent` config: a `config_field("test", default="foo")`
slot and `param: float = -1.0`. -/
def parentS : Schema := .mk "Parent" [
  .mk "child" .fAny true none (some (.virt "test" true (some "foo") none)),
  .mk "param" .fFloat false none (some (.raw (.float (-1))))]

/-- The tests' registrations: `foo` and `bar` under category `test`,
neither with a constructor. -/
def regT : Registry :=
  factoryRegister (factoryRegister .empty fooS "test" (some "foo") none)
    barS "test" (some "bar") none

/-- The default `Foo()` field values. -/
def fooD : List (String × CVal) :=
  [("a", .raw (.float 5)), ("b", .raw (.int 2)), ("c", .raw (.str "hello"))]

/-- The tests' `CustomConfig`: `foo: float = 0.5`, registered with the
`FloorConverter.from_config` constructor. -/
def customS : Schema :=
  .mk "CustomConfig" [.mk "foo" .fFloat false none (some (.raw (.float (mkRat 1 2))))]

/-- `regT` extended with `CustomConfig` under tag `custom`, with a
registered constructor — `foo` and `bar` still have none. -/
def regC : Registry :=
  factoryRegister regT customS "test" (some "custom") (some "FloorConverter.from_config")

/-! ### Claim theorems -/

/-- C10: equality on a `VirtualConfig` whose `_config` is unresolved
returns `False` against every value — in particular against another
unresolved slot with the same category and tag and against the slot
itself, so equality is not reflexive in the unresolved state. -/
theorem claim10_unresolved_slot_eq_false :
    (∀ (f : Nat) (cat : String) (req : Bool) (t : Option String) (other : CVal),
      pyEqF f (.virt cat req t none) other = false) ∧
    (∀ (f : Nat) (cat : String) (req : Bool) (t : Option String),
      pyEqF f (.virt cat req t none) (.virt cat req t none) = false) := by
  constructor
  · intro f cat req t other
    cases f with
    | zero => rfl
    | succ f =>
      cases other <;> try rfl
      rename_i vcfg2
      cases vcfg2 <;> rfl
  · intro f cat req t
    cases f with
    | zero => rfl
    | succ f => rfl

/-- C7: `Config.update` with a non-mapping input never raises: it logs
exactly one `Invalid config data` diagnostic and leaves every field at
its prior value. -/
theorem claim7_nonmapping_update_noop (reg : Registry) (f : Nat)
    (strict warn : Bool) (parent : String) (s : Schema)
    (vals : List (String × CVal)) (y : PyVal) (h : isDictP y = false) :
    configUpdate reg (f + 1) strict warn parent s vals y =
      .ok (vals, [.invalidConfigData s.name]) := by
  cases y <;> simp_all [isDictP, configUpdate]

/-- Witness for C7 at the specification's own example: `x.update(5.0)`. -/
theorem claim7_witness :
    configUpdate regT 1 true false "" fooS fooD (.float 5) =
      .ok (fooD, [.invalidConfigData fooS.name]) :=
  claim7_nonmapping_update_noop regT 0 true false "" fooS fooD (.float 5) rfl

/-- C5 (code bug): `ConfigFactory.get_constructor` returns null for an
unknown category or tag, and returns the registered constructor when one
exists, but for a `(category, tag)` pair that was registered *without* a
constructor it raises `KeyError` on the unguarded
`_constructors[category][typename]` subscript instead of returning null —
both when the category has no constructors at all (`regT`) and when
another type in the category has one (`regC`). -/
theorem claim5_get_constructor_keyerror :
    getConstructor regT "test" "foo" = .error .keyError ∧
    getConstructor regC "test" "foo" = .error .keyError ∧
    getConstructor regC "test" "custom" = .ok (some "FloorConverter.from_config") ∧
    getConstructor regC "test" "unknown" = .ok none ∧
    getConstructor regC "unknown" "foo" = .ok none :=
  ⟨rfl, rfl, rfl, rfl, rfl⟩

/-! ### Empty-update and slot-update helper lemmas -/

/-- Folding `Config.update`'s field loop over an empty input mapping
touches no field value: every field is absent, so each step only extends
the diagnostic list (with a missing-field warning when requested). -/
theorem updLoop_empty_kvs (reg : Registry) (f : Nat) (strict warn : Bool)
    (parent : String) (s : Schema) (fds : List FieldDecl) :
    ∀ vals ds, ∃ ds',
      updLoop (fun fd st => updateField reg (f + 1) strict warn parent s [] fd st)
        fds (vals, ds) = .ok (vals, ds') := by
  induction fds with
  | nil => exact fun vals ds => ⟨ds, rfl⟩
  | cons fd rest ih =>
    intro vals ds
    simpa [updLoop, updateField, alookup] using ih vals _

/-- `Config.update({})` leaves every field value unchanged and returns
without raising, for every schema and instance. -/
theorem configUpdate_empty (reg : Registry) (f : Nat) (strict warn : Bool)
    (parent : String) (s : Schema) (vals : List (String × CVal)) :
    ∃ ds, configUpdate reg (f + 2) strict warn parent s vals (.dict []) =
      .ok (vals, ds) := by
  simpa [configUpdate] using updLoop_empty_kvs reg f strict warn parent s s.fields vals []

/-- `VirtualConfig.update({})` on a resolved slot is the identity on the
slot state (an error is additionally logged when the slot is required but
has no tag). -/
theorem virtualUpdate_empty_resolved (reg : Registry) (f : Nat)
    (strict warn : Bool) (parent cat : String) (req : Bool)
    (vt : Option String) (s2 : Schema) (v2 : List (String × CVal)) :
    virtualUpdate reg (f + 1) strict warn parent cat req vt
        (some (.cfg s2 v2)) (.dict []) =
      .ok (.virt cat req vt (some (.cfg s2 v2)),
        if vt.isNone && req then [.noTypeForVirtual cat] else []) := by
  simp [virtualUpdate, alookup]

/-- C2 counterexample: `x.update({})` is not always a no-op on a
Polymorphic Slot.  On an unresolved slot with a registered default tag it
creates and stores a fresh instance (the held instance changes from
nothing to a default `Foo`), and on a required unresolved slot with no
tag it raises `ValueError` — as the repository's own test
`test_update` expects. -/
theorem claim2_counterexample :
    virtualUpdate regT 2 true false "" "test" true (some "foo") none (.dict []) =
      .ok (.virt "test" true (some "foo") (some (.cfg fooS fooD)), []) ∧
    virtualUpdate regT 1 true false "" "test" true none none (.dict []) =
      .error (.py .valueError) :=
  ⟨rfl, rfl⟩

/-- C2 (amended): `x.update({})` returns without raising and leaves every
field unchanged for every Schema Node instance and for every *resolved*
Polymorphic Slot; an *unresolved* slot instead attempts resolution —
raising `ValueError` when it is required and no tag is resolvable, and
storing a freshly default-constructed instance (tag unchanged) when its
tag is registered. -/
theorem claim2_empty_update (reg : Registry) (f : Nat) (strict warn : Bool)
    (parent : String) :
    (∀ (s : Schema) (vals : List (String × CVal)),
      ∃ ds, configUpdate reg (f + 2) strict warn parent s vals (.dict []) =
        .ok (vals, ds)) ∧
    (∀ (cat : String) (req : Bool) (vt : Option String) (s2 : Schema)
        (v2 : List (String × CVal)),
      virtualUpdate reg (f + 1) strict warn parent cat req vt
          (some (.cfg s2 v2)) (.dict []) =
        .ok (.virt cat req vt (some (.cfg s2 v2)),
          if vt.isNone && req then [.noTypeForVirtual cat] else [])) ∧
    (∀ (cat : String),
      virtualUpdate reg (f + 1) strict warn parent cat true none none (.dict []) =
        .error (.py .valueError)) ∧
    (∀ (cat tag : String) (req : Bool) (catF : List (String × Schema))
        (sch : Schema) (dv : List (String × CVal)),
      tag ≠ "" →
      alookup reg.factories cat = some catF →
      alookup catF tag = some sch →
      mkDefaultFields sch.fields = some dv →
      virtualUpdate reg (f + 1) strict warn parent cat req (some tag) none (.dict []) =
        .ok (.virt cat req (some tag) (some (.cfg sch dv)), [])) := by
  refine ⟨fun s vals => configUpdate_empty reg f strict warn parent s vals,
    fun cat req vt s2 v2 => virtualUpdate_empty_resolved reg f strict warn parent cat req vt s2 v2,
    fun cat => by simp [virtualUpdate, alookup, virtualCreate],
    fun cat tag req catF sch dv htag hcat hfac hdv => ?_⟩
  simp [virtualUpdate, alookup, virtualCreate, htag, hcat, hfac, factoryCreate,
    mkDefault, hdv]

/-- Witness for C2's amended theorem: the `test` fixtures — an empty
update preserves `Foo()`, preserves a resolved slot, raises on a required
unresolved slot without a tag, and resolves an unresolved slot whose
default tag `foo` is registered. -/
theorem claim2_witness :
    (∃ ds, configUpdate regT 2 true false "" fooS fooD (.dict []) = .ok (fooD, ds)) ∧
    virtualUpdate regT 1 true false "" "test" false (some "bar")
        (some (.cfg fooS fooD)) (.dict []) =
      .ok (.virt "test" false (some "bar") (some (.cfg fooS fooD)), []) ∧
    virtualUpdate regT 1 true false "" "test" true none none (.dict []) =
      .error (.py .valueError) ∧
    virtualUpdate regT 1 true false "" "test" true (some "foo") none (.dict []) =
      .ok (.virt "test" true (some "foo") (some (.cfg fooS fooD)), []) := by
  refine ⟨(claim2_empty_update regT 0 true false "").1 fooS fooD,
    (claim2_empty_update regT 0 true false "").2.1 "test" false (some "bar") fooS fooD,
    (claim2_empty_update regT 0 true false "").2.2.1 "test",
    (claim2_empty_update regT 0 true false "").2.2.2 "test" "foo" true _ fooS fooD
      (by decide) rfl rfl rfl⟩

/-- C3 counterexample: `VirtualConfig.update` does *not* raise exactly on
present non-null non-mapping inputs.  A null input passes the guard and
then raises `AttributeError` at `config_data.get(...)` (the claim says
null is acceptable), and the mapping `{}` raises `ValueError` on a
required unresolved slot with no tag. -/
theorem claim3_counterexample :
    virtualUpdate regT 1 true false "" "test" true (some "foo") none .null =
      .error (.py .attributeError) ∧
    virtualUpdate regC 1 true false "" "test" true none none (.dict []) =
      .error (.py .valueError) :=
  ⟨rfl, rfl⟩

/-- C3 (amended): `VirtualConfig.update` raises `ValueError` whenever its
input is present, not null, and not a mapping; but a null input *also*
raises (`AttributeError`, from reading the type tag off `None`), and a
mapping input can still raise — `ValueError` when the slot must create
its instance and no tag is resolvable for a required slot. -/
theorem claim3_virtual_update_raises (reg : Registry) (f : Nat)
    (strict warn : Bool) (parent cat : String) :
    (∀ (req : Bool) (vt : Option String) (vc : Option CVal) (y : PyVal),
      isDictP y = false → y ≠ .null →
      virtualUpdate reg (f + 1) strict warn parent cat req vt vc y =
        .error (.py .valueError)) ∧
    (∀ (req : Bool) (vt : Option String) (vc : Option CVal),
      virtualUpdate reg (f + 1) strict warn parent cat req vt vc .null =
        .error (.py .attributeError)) ∧
    (∀ (kvs : List (String × PyVal)),
      alookup kvs "type" = none →
      virtualUpdate reg (f + 1) strict warn parent cat true none none (.dict kvs) =
        .error (.py .valueError)) := by
  refine ⟨fun req vt vc y hdict hnull => ?_,
    fun req vt vc => rfl,
    fun kvs htype => by simp [virtualUpdate, htype, virtualCreate]⟩
  cases y <;> simp_all [isDictP, virtualUpdate]

/-- Witness for C3's amended theorem at concrete inputs: a list input
(the repo test's `update([])`), a null input, and `{}` on a required
unresolved slot. -/
theorem claim3_witness :
    virtualUpdate regT 1 true false "" "test" true (some "foo") none (.list []) =
      .error (.py .valueError) ∧
    virtualUpdate regT 1 true false "" "test" true (some "foo") none .null =
      .error (.py .attributeError) ∧
    virtualUpdate regT 1 true false "" "test" true none none
        (.dict [("a", .int 1)]) = .error (.py .valueError) :=
  ⟨(claim3_virtual_update_raises regT 0 true false "" "test").1 true (some "foo")
      none (.list []) rfl (by simp),
    (claim3_virtual_update_raises regT 0 true false "" "test").2.1 true (some "foo") none,
    (claim3_virtual_update_raises regT 0 true false "" "test").2.2
      [("a", .int 1)] rfl⟩

/-! ### Field-loop decomposition lemmas -/

theorem updLoop_append {σ : Type _} (step : FieldDecl → σ → Except UErr σ)
    (l1 l2 : List FieldDecl) (st : σ) :
    updLoop step (l1 ++ l2) st =
      match updLoop step l1 st with
      | .error e => .error e
      | .ok st' => updLoop step l2 st' := by
  induction l1 generalizing st with
  | nil => simp [updLoop]
  | cons fd rest ih =>
    simp only [List.cons_append, updLoop]
    cases step fd st with
    | error e => rfl
    | ok st' => exact ih st'

/-- Fields absent from the input mapping are skipped without touching the
state (no diagnostics when `warn_missing` is off). -/
theorem updLoop_not_present (reg : Registry) (f : Nat) (strict : Bool)
    (parent : String) (s : Schema) (kvs : List (String × PyVal))
    (fds : List FieldDecl) (h : ∀ fd' ∈ fds, alookup kvs fd'.name = none) :
    ∀ vals ds,
      updLoop (fun fd st => updateField reg (f + 1) strict false parent s kvs fd st)
        fds (vals, ds) = .ok (vals, ds) := by
  induction fds with
  | nil => intro vals ds; rfl
  | cons fd rest ih =>
    intro vals ds
    have hfd := h fd (List.mem_cons_self fd rest)
    have hrest := fun fd' hm => h fd' (List.mem_cons_of_mem fd hm)
    simpa [updLoop, updateField, hfd] using ih hrest vals ds

theorem isListVal_raw (p : PyVal) : isListVal (.raw p) = isListP p := by
  cases p <;> rfl

/-- C6: on a Schema Node with an `int`-typed scalar field (no custom
converter), updating with a raw value whose coercion fails under strict
mode catches the exception, logs one diagnostic carrying the field's
dotted path and declared type, and leaves every field at its prior value;
under lenient mode the same raw value is stored unchanged, with no
coercion, although `int` has a registered parser. -/
theorem claim6_strict_vs_lenient_leaf (reg : Registry) (f : Nat)
    (parent nm : String) (pre post : List FieldDecl)
    (vals : List (String × CVal)) (n : String) (d0 : Option CVal)
    (p v : PyVal) (e : PyErr)
    (hpre : ∀ fd' ∈ pre, fd'.name ≠ n)
    (hpost : ∀ fd' ∈ post, fd'.name ≠ n)
    (hval : alookup vals n = some (.raw p)) (hp : isListP p = false)
    (hfail : typeParse .fInt v = .error e) :
    configUpdate reg (f + 2) true false parent
        (.mk nm (pre ++ .mk n .fInt false none d0 :: post)) vals
        (.dict [(n, v)]) =
      .ok (vals, [.skipInvalidLeaf nm
        (if parent = "" then n else parent ++ "/" ++ n) .fInt e]) ∧
    configUpdate reg (f + 2) false false parent
        (.mk nm (pre ++ .mk n .fInt false none d0 :: post)) vals
        (.dict [(n, v)]) =
      .ok (aset vals n (.raw v), []) := by
  have hk : ∀ fd' ∈ pre, alookup [(n, v)] fd'.name = none := by
    intro fd' hm
    simp only [alookup, if_neg (fun h : n = fd'.name => hpre fd' hm h.symm)]
  have hk2 : ∀ fd' ∈ post, alookup [(n, v)] fd'.name = none := by
    intro fd' hm
    simp only [alookup, if_neg (fun h : n = fd'.name => hpost fd' hm h.symm)]
  have hcl : isCfgVal (.raw p) = false := by cases p <;> rfl
  have hll : isListVal (.raw p) = false := by rw [isListVal_raw]; exact hp
  constructor
  · have hstep : updateField reg (f + 1) true false parent
        (.mk nm (pre ++ .mk n .fInt false none d0 :: post)) [(n, v)]
        (.mk n .fInt false none d0) (vals, []) =
        .ok (vals, [.skipInvalidLeaf nm
          (if parent = "" then n else parent ++ "/" ++ n) .fInt e]) := by
      simp [updateField, alookup, FieldDecl.name, FieldDecl.ty,
        FieldDecl.virtualCfg, FieldDecl.converter, hval, hcl, hll,
        parseLeafVal, hfail, Schema.name]
    simp only [configUpdate, Schema.fields, updLoop_append,
      updLoop_not_present reg f true parent _ [(n, v)] pre hk]
    simp only [updLoop, hstep]
    exact updLoop_not_present reg f true parent _ [(n, v)] post hk2 vals _
  · have hstep : updateField reg (f + 1) false false parent
        (.mk nm (pre ++ .mk n .fInt false none d0 :: post)) [(n, v)]
        (.mk n .fInt false none d0) (vals, []) =
        .ok (aset vals n (.raw v), []) := by
      simp [updateField, alookup, FieldDecl.name, FieldDecl.ty,
        FieldDecl.virtualCfg, FieldDecl.converter, hval, hcl, hll,
        parseLeafVal]
    simp only [configUpdate, Schema.fields, updLoop_append,
      updLoop_not_present reg f false parent _ [(n, v)] pre hk]
    simp only [updLoop, hstep]
    exact updLoop_not_present reg f false parent _ [(n, v)] post hk2 _ _

/-- Witness for C6 at the repository's own test: `Bar().update({"d":
"2.0"})` strict leaves `Bar()` unchanged with one diagnostic at path `d`
of type `int`; lenient stores the raw string. -/
theorem claim6_witness :
    configUpdate regT 2 true false ""
        (.mk "Bar" ([.mk "bar" .fStr false none (some (.raw (.str "world")))] ++
          .mk "d" .fInt false none (some (.raw (.int 15))) :: []))
        [("bar", .raw (.str "world")), ("d", .raw (.int 15))]
        (.dict [("d", .str "2.0")]) =
      .ok ([("bar", .raw (.str "world")), ("d", .raw (.int 15))],
        [.skipInvalidLeaf "Bar" "d" .fInt .valueError]) ∧
    configUpdate regT 2 false false ""
        (.mk "Bar" ([.mk "bar" .fStr false none (some (.raw (.str "world")))] ++
          .mk "d" .fInt false none (some (.raw (.int 15))) :: []))
        [("bar", .raw (.str "world")), ("d", .raw (.int 15))]
        (.dict [("d", .str "2.0")]) =
      .ok (aset [("bar", .raw (.str "world")), ("d", .raw (.int 15))] "d"
        (.raw (.str "2.0")), []) := by
  have h := claim6_strict_vs_lenient_leaf regT 0 "" "Bar"
    [.mk "bar" .fStr false none (some (.raw (.str "world")))] []
    [("bar", .raw (.str "world")), ("d", .raw (.int 15))] "d"
    (some (.raw (.int 15))) (.int 15) (.str "2.0") .valueError
    (by intro fd' hm; simp at hm; subst hm; decide)
    (by intro fd' hm; simp at hm)
    rfl rfl rfl
  exact h

/-! ### Dump purity (C4) -/

theorem alookup_mem {α : Type _} (l : List (String × α)) (k : String) (v : α)
    (h : alookup l k = some v) : (k, v) ∈ l := by
  induction l with
  | nil => simp [alookup] at h
  | cons hd tl ih =>
    obtain ⟨k', v'⟩ := hd
    by_cases hk : k' = k
    · subst hk
      simp [alookup] at h
      simp [h]
    · simp only [alookup, if_neg hk] at h
      exact List.mem_cons_of_mem _ (ih h)

theorem aset_self_of_lookup {α : Type _} (l : List (String × α)) (k : String)
    (v : α) (h : alookup l k = some v) : aset l k v = l := by
  induction l with
  | nil => rfl
  | cons hd tl ih =>
    obtain ⟨k', v'⟩ := hd
    by_cases hk : k' = k
    · subst hk
      simp [alookup] at h
      simp [aset, h]
    · simp only [alookup, if_neg hk] at h
      simp [aset, hk, ih h]

/-- Runtime values all of whose polymorphic slots (reachable through
config fields and config lists) hold a resolved instance. -/
inductive Settled : CVal → Prop
  | raw (p : PyVal) : Settled (.raw p)
  | cfg (s : Schema) (vals : List (String × CVal)) :
      (∀ nv ∈ vals, Settled nv.2) → Settled (.cfg s vals)
  | clist (xs : List CVal) : (∀ x ∈ xs, Settled x) → Settled (.clist xs)
  | virt (cat : String) (req : Bool) (t : Option String) (c : CVal) :
      Settled c → Settled (.virt cat req t (some c))

/-- Whenever `dump` completes on settled values, it returns the field
values (and, for slots, the slot state) exactly as they were: the only
dump-time mutation in the source is the resolution of an unresolved
slot. -/
theorem dump_pure (reg : Registry) : ∀ f : Nat,
    (∀ (addType : Bool) (s : Schema) (vals : List (String × CVal))
        (d : Option PyVal) (vals' : List (String × CVal)),
      (∀ nv ∈ vals, Settled nv.2) →
      configDump reg f addType s vals = .ok (d, vals') → vals' = vals) ∧
    (∀ (fd : FieldDecl) (b b' : List (String × Option PyVal))
        (vals vals' : List (String × CVal)),
      (∀ nv ∈ vals, Settled nv.2) →
      dumpField reg f fd (b, vals) = .ok (b', vals') → vals' = vals) ∧
    (∀ (cat : String) (req : Bool) (t : Option String) (c : CVal)
        (d : Option PyVal) (w : CVal),
      Settled c →
      virtualDump reg f cat req t (some c) = .ok (d, w) →
      w = .virt cat req t (some c)) ∧
    (∀ (cat : String) (req : Bool) (t : Option String) (s2 : Schema)
        (v2 : List (String × CVal)) (d : Option PyVal) (w : CVal),
      (∀ nv ∈ v2, Settled nv.2) →
      virtualDumpInner reg f cat req t s2 v2 = .ok (d, w) →
      w = .virt cat req t (some (.cfg s2 v2))) := by
  intro f
  induction f with
  | zero =>
    refine ⟨?_, ?_, ?_, ?_⟩
    · intro _ _ _ _ _ _ h; simp [configDump] at h
    · intro _ _ _ _ _ _ h; simp [dumpField] at h
    · intro _ _ _ _ _ _ _ h; simp [virtualDump] at h
    · intro _ _ _ _ _ _ _ _ h; simp [virtualDumpInner] at h
  | succ f ih =>
    obtain ⟨ihC, ihF, ihV, ihI⟩ := ih
    have foldPure : ∀ (fds : List FieldDecl) (vals : List (String × CVal)),
        (∀ nv ∈ vals, Settled nv.2) →
        ∀ (b : List (String × Option PyVal)) (b' : List (String × Option PyVal))
          (vals' : List (String × CVal)),
        updLoop (fun fd st => dumpField reg f fd st) fds (b, vals) =
          .ok (b', vals') → vals' = vals := by
      intro fds vals hs
      induction fds with
      | nil =>
        intro b b' vals' h
        simp [updLoop] at h
        exact h.2.symm
      | cons fd rest ihr =>
        intro b b' vals' h
        simp only [updLoop] at h
        cases hstep : dumpField reg f fd (b, vals) with
        | error e => simp [hstep] at h
        | ok st' =>
          obtain ⟨b1, v1⟩ := st'
          have hv1 : v1 = vals := ihF fd b b1 vals v1 hs hstep
          rw [hstep] at h
          subst hv1
          exact ihr b1 b' vals' h
    refine ⟨?_, ?_, ?_, ?_⟩
    · intro addType s vals d vals' hs h
      simp only [configDump] at h
      cases hA : asdictFields f vals with
      | error e => simp [hA] at h
      | ok base0 =>
        simp only [hA] at h
        cases hU : updLoop (fun fd st => dumpField reg f fd st) s.fields
            (withTypeKey addType (getInfo reg s.name) base0, vals) with
        | error e => simp [hU] at h
        | ok st' =>
          obtain ⟨b', vs'⟩ := st'
          have hfold := foldPure s.fields vals hs _ b' vs' hU
          simp only [hU] at h
          simp at h
          rw [← h.2]
          exact hfold
    · intro fd b b' vals vals' hs h
      simp only [dumpField] at h
      cases hl : alookup vals fd.name with
      | none =>
        simp [hl] at h
        exact h.2.symm
      | some fv =>
        have hsv : Settled fv := hs (fd.name, fv) (alookup_mem vals fd.name fv hl)
        cases hvb : fd.virtualCfg with
        | true =>
          cases fv with
          | virt c r t vc =>
            cases hsv with
            | virt _ _ _ c' hc' =>
              cases hd : virtualDump reg f c r t (some c') with
              | error e => simp [hl, hvb, hd] at h
              | ok dw =>
                obtain ⟨d0, w⟩ := dw
                have hw : w = .virt c r t (some c') := ihV c r t c' d0 w hc' hd
                simp [hl, hvb, hd] at h
                rw [← h.2, hw]
                exact aset_self_of_lookup vals fd.name _ hl
          | cfg s2 v2 =>
            have hmem : ∀ nv ∈ v2, Settled nv.2 := by
              cases hsv with
              | cfg _ _ hm => exact hm
            cases hd : configDump reg f true s2 v2 with
            | error e => simp [hl, hvb, hd] at h
            | ok dw =>
              obtain ⟨d0, v2'⟩ := dw
              have hv2 : v2' = v2 := ihC true s2 v2 d0 v2' hmem hd
              simp [hl, hvb, hd] at h
              rw [← h.2, hv2]
              exact aset_self_of_lookup vals fd.name _ hl
          | raw p => simp [hl, hvb] at h
          | clist xs => simp [hl, hvb] at h
        | false =>
          cases fv with
          | cfg s2 v2 =>
            have hmem : ∀ nv ∈ v2, Settled nv.2 := by
              cases hsv with
              | cfg _ _ hm => exact hm
            cases hd : configDump reg f false s2 v2 with
            | error e => simp [hl, hvb, hd] at h
            | ok dw =>
              obtain ⟨d0, v2'⟩ := dw
              have hv2 : v2' = v2 := ihC false s2 v2 d0 v2' hmem hd
              simp [hl, hvb, hd] at h
              rw [← h.2, hv2]
              exact aset_self_of_lookup vals fd.name _ hl
          | raw p =>
            simp [hl, hvb] at h
            exact h.2.symm
          | clist xs =>
            simp [hl, hvb] at h
            exact h.2.symm
          | virt c r t vc =>
            simp [hl, hvb] at h
            exact h.2.symm
    · intro cat req t c d w hsc h
      simp only [virtualDump] at h
      cases c with
      | cfg s2 v2 =>
        have hmem : ∀ nv ∈ v2, Settled nv.2 := by
          cases hsc with
          | cfg _ _ hm => exact hm
        exact ihI cat req t s2 v2 d w hmem h
      | raw p => simp at h
      | clist xs => simp at h
      | virt c2 r2 t2 vc2 => simp at h
    · intro cat req t s2 v2 d w hs h
      simp only [virtualDumpInner] at h
      cases hd : configDump reg f false s2 v2 with
      | error e => simp [hd] at h
      | ok dw =>
        obtain ⟨d0, v2'⟩ := dw
        have hv2 : v2' = v2 := ihC false s2 v2 d0 v2' hs hd
        simp [hd] at h
        rw [← h.2, hv2]

/-- The default `Bar()` field values. -/
def barD : List (String × CVal) :=
  [("bar", .raw (.str "world")), ("d", .raw (.int 15))]

/-- C4 counterexample: `dump` is not a pure read on every instance.  On an
unresolved slot whose default tag is registered, `VirtualConfig.dump`
resolves the slot and *stores* the created instance: the held instance
changes from nothing to a default `Foo`. -/
theorem claim4_counterexample :
    virtualDump regT 9 "test" true (some "foo") none =
      .ok (some (.dict [("a", .float 5), ("b", .int 2), ("c", .str "hello"),
        ("type", .str "foo")]),
        .virt "test" true (some "foo") (some (.cfg fooS fooD))) ∧
    (.virt "test" true (some "foo") (some (.cfg fooS fooD)) : CVal) ≠
      .virt "test" true (some "foo") none :=
  ⟨rfl, by simp⟩

/-- C4 (amended): `dump` is a pure read on every Schema Node instance all
of whose slots are resolved, and on every resolved Polymorphic Slot:
whenever it completes it leaves every field value, and the slot's tag and
held instance, exactly as they were.  (An unresolved slot's dump instead
attempts resolution and may store the created instance.) -/
theorem claim4_dump_pure_when_resolved (reg : Registry) :
    (∀ (f : Nat) (addType : Bool) (s : Schema) (vals : List (String × CVal))
        (d : Option PyVal) (vals' : List (String × CVal)),
      (∀ nv ∈ vals, Settled nv.2) →
      configDump reg f addType s vals = .ok (d, vals') → vals' = vals) ∧
    (∀ (f : Nat) (cat : String) (req : Bool) (t : Option String) (c : CVal)
        (d : Option PyVal) (w : CVal),
      Settled c →
      virtualDump reg f cat req t (some c) = .ok (d, w) →
      w = .virt cat req t (some c)) :=
  ⟨fun f => (dump_pure reg f).1, fun f => (dump_pure reg f).2.2.1⟩

/-- Witness for C4's amended theorem: dumping a resolved slot holding
`Bar()` produces `Bar`'s document with the tag injected and leaves the
slot state unchanged. -/
theorem claim4_witness :
    virtualDump regT 9 "test" true (some "bar") (some (.cfg barS barD)) =
      .ok (some (.dict [("bar", .str "world"), ("d", .int 15),
        ("type", .str "bar")]),
        .virt "test" true (some "bar") (some (.cfg barS barD))) ∧
    (.virt "test" true (some "bar") (some (.cfg barS barD)) : CVal) =
      .virt "test" true (some "bar") (some (.cfg barS barD)) := by
  have hset : Settled (.cfg barS barD) := by
    refine .cfg _ _ ?_
    intro nv h
    fin_cases h <;> exact .raw _
  exact ⟨rfl, (claim4_dump_pure_when_resolved regT).2 9 "test" true (some "bar")
    (.cfg barS barD) _ _ hset rfl⟩

/-! ### Config-list replacement (C8) -/

/-- The field step for a config-list field whose current value is a list:
the entire stored sequence is replaced by `_parse_yaml_list`'s result. -/
theorem updateField_list_step (reg : Registry) (f : Nat) (strict : Bool)
    (parent : String) (s : Schema) (kvs : List (String × PyVal)) (n : String)
    (es : Schema) (conv : Option ConverterId) (d0 : Option CVal)
    (vals : List (String × CVal)) (ds : Diags) (fc : PyVal)
    (xs : List CVal) (hin : alookup kvs n = some fc)
    (hval : alookup vals n = some (.clist xs)) :
    updateField reg (f + 2) strict false parent s kvs
        (.mk n (.fConfigList es) false conv d0) (vals, ds) =
      match parseYamlList reg (f + 1) strict false
          (if parent = "" then n else parent ++ "/" ++ n) es
          (sequenceIter fc) with
      | .error e => .error e
      | .ok (ys, ds') => .ok (aset vals n (.clist ys), ds ++ ds') := by
  simp [updateField, FieldDecl.name, hin, hval, isCfgVal, FieldDecl.virtualCfg,
    isListVal, FieldDecl.ty]

/-- C8: on a Schema Node with a config-list field currently holding a
(possibly non-empty) list: an input mapping the field to an empty
sequence replaces the stored value with the empty list; an input without
the field leaves it unchanged; and whenever the field is present the
stored sequence is exactly `_parse_yaml_list` of the input value — fully
re-derived, independent of the prior elements. -/
theorem claim8_list_replace_on_presence (reg : Registry) (f : Nat)
    (strict : Bool) (parent nm : String) (pre post : List FieldDecl)
    (n : String) (es : Schema) (conv : Option ConverterId)
    (d0 : Option CVal) (vals : List (String × CVal)) (xs : List CVal)
    (hpre : ∀ fd' ∈ pre, fd'.name ≠ n)
    (hpost : ∀ fd' ∈ post, fd'.name ≠ n)
    (hval : alookup vals n = some (.clist xs)) :
    configUpdate reg (f + 3) strict false parent
        (.mk nm (pre ++ .mk n (.fConfigList es) false conv d0 :: post)) vals
        (.dict [(n, .list [])]) =
      .ok (aset vals n (.clist []), []) ∧
    (∃ ds, configUpdate reg (f + 3) strict false parent
        (.mk nm (pre ++ .mk n (.fConfigList es) false conv d0 :: post)) vals
        (.dict []) = .ok (vals, ds)) ∧
    (∀ (fc : PyVal) (r : List (String × CVal)) (ds : Diags),
      configUpdate reg (f + 3) strict false parent
          (.mk nm (pre ++ .mk n (.fConfigList es) false conv d0 :: post)) vals
          (.dict [(n, fc)]) = .ok (r, ds) →
      ∃ (ys : List CVal) (ds' : Diags),
        parseYamlList reg (f + 1) strict false
            (if parent = "" then n else parent ++ "/" ++ n) es
            (sequenceIter fc) = .ok (ys, ds') ∧
        alookup r n = some (.clist ys)) := by
  have hk : ∀ (fc : PyVal), ∀ fd' ∈ pre, alookup [(n, fc)] fd'.name = none := by
    intro fc fd' hm
    simp only [alookup, if_neg (fun h : n = fd'.name => hpre fd' hm h.symm)]
  have hk2 : ∀ (fc : PyVal), ∀ fd' ∈ post, alookup [(n, fc)] fd'.name = none := by
    intro fc fd' hm
    simp only [alookup, if_neg (fun h : n = fd'.name => hpost fd' hm h.symm)]
  refine ⟨?_, ?_, ?_⟩
  · simp only [configUpdate, Schema.fields, updLoop_append,
      updLoop_not_present reg (f + 1) strict parent _ [(n, .list [])] pre (hk _)]
    simp only [updLoop,
      updateField_list_step reg f strict parent _ [(n, .list [])] n es conv d0
        vals [] (.list []) xs (by simp [alookup]) hval]
    simp only [sequenceIter, parseYamlList]
    exact updLoop_not_present reg (f + 1) strict parent _ [(n, .list [])] post (hk2 _) _ _
  · exact configUpdate_empty reg (f + 1) strict false parent _ vals
  · intro fc r ds h
    simp only [configUpdate, Schema.fields, updLoop_append,
      updLoop_not_present reg (f + 1) strict parent _ [(n, fc)] pre (hk _)] at h
    simp only [updLoop,
      updateField_list_step reg f strict parent _ [(n, fc)] n es conv d0
        vals [] fc xs (by simp [alookup]) hval] at h
    cases hP : parseYamlList reg (f + 1) strict false
        (if parent = "" then n else parent ++ "/" ++ n) es (sequenceIter fc) with
    | error e => simp [hP] at h
    | ok ysds =>
      obtain ⟨ys, ds'⟩ := ysds
      rw [hP] at h
      simp only [List.nil_append] at h
      rw [updLoop_not_present reg (f + 1) strict parent _ [(n, fc)] post (hk2 _) _ _] at h
      refine ⟨ys, ds', rfl, ?_⟩
      have hr : r = aset vals n (.clist ys) := by
        injection h with h1
        exact (congrArg Prod.fst h1).symm
      rw [hr, alookup_aset_self, hval]
      rfl

/-- Witness for C8 on a `ListConfig`-style schema holding one non-empty
element: `update({"children": []})` clears it, `update({})` keeps it, and
a present field re-derives the sequence from the input. -/
theorem claim8_witness :
    configUpdate regT 3 true false ""
        (.mk "ListConfig" ([] ++ .mk "children" (.fConfigList fooS) false none
          (some (.clist [])) :: []))
        [("children", .clist [.cfg fooS fooD])]
        (.dict [("children", .list [])]) =
      .ok (aset [("children", .clist [.cfg fooS fooD])] "children" (.clist []), []) ∧
    (∃ ds, configUpdate regT 3 true false ""
        (.mk "ListConfig" ([] ++ .mk "children" (.fConfigList fooS) false none
          (some (.clist [])) :: []))
        [("children", .clist [.cfg fooS fooD])] (.dict []) =
      .ok ([("children", .clist [.cfg fooS fooD])], ds)) := by
  have h := claim8_list_replace_on_presence regT 0 true "" "ListConfig" [] []
    "children" fooS none (some (.clist [])) [("children", .clist [.cfg fooS fooD])]
    [.cfg fooS fooD] (by intro fd' hm; simp at hm) (by intro fd' hm; simp at hm) rfl
  exact ⟨h.1, h.2.1⟩

/-! ### Config maps (C1) — modelled from the spec

The source file under `src` has no handling for `Dict[str, Config]`
fields (`Config.update` has no `extend` parameter and no mapping branch);
the repository's tests (`test_config_map`, `test_config_map_from_list`,
`test_invalid_map`) exercise that behavior, so the population operation
is modelled here from the specification's words (§4.2 item 4 and the
list/map construction detail). -/

theorem not_mem_keys_of_alookup_none {α : Type _} (l : List (String × α))
    (k : String) (h : alookup l k = none) : k ∉ l.map Prod.fst := by
  induction l with
  | nil => simp
  | cons hd tl ih =>
    obtain ⟨k', v'⟩ := hd
    by_cases hk : k' = k
    · subst hk; simp [alookup] at h
    · simp only [alookup, if_neg hk] at h
      simp only [List.map_cons, List.mem_cons, not_or]
      exact ⟨fun hh => hk hh.symm, ih h⟩

theorem alookup_filter_keys {α : Type _} (l : List (String × α))
    (p : String → Bool) (k : String) :
    alookup (l.filter (fun kv => p kv.1)) k =
      if p k then alookup l k else none := by
  induction l with
  | nil => simp [alookup]
  | cons hd tl ih =>
    obtain ⟨k', v'⟩ := hd
    by_cases hk : k' = k
    · subst hk
      by_cases hp : p k' <;> simp [alookup, hp, ih]
    · by_cases hp : p k' <;> simp [alookup, hp, hk, ih]

/-- Modelled from the spec: the source pairs for populating a config map
— a mapping contributes its keys and values; a bare sequence synthesizes
keys as the stringified positional index; anything else contributes
nothing. -/
def mapSourcePairs : PyVal → List (String × PyVal)
  | .dict kvs => kvs
  | .list xs => xs.enum.map (fun iv => (toString iv.1, iv.2))
  | _ => []

/-- Modelled from the spec: the per-key population loop for a config-map
field (absent from `src`'s `Config.update`).  Existing keys are updated
in place; new keys get a fresh default-constructed element before being
updated and are appended; a default-construction failure aborts the
population at that point with a diagnostic (construction is deterministic
here, so the abort happens before any new key is added). -/
def mapPairsLoop (reg : Registry) (fuel : Nat) (strict warn : Bool)
    (gname : String) (es : Schema) :
    List (String × PyVal) → List (String × CVal) → Diags →
    Except UErr (List (String × CVal) × Diags)
  | [], cur, ds => .ok (cur, ds)
  | (k, sub) :: rest, cur, ds =>
    match alookup cur k with
    | some (.cfg s2 v2) =>
      match configUpdate reg fuel strict warn (gname ++ "/" ++ k) s2 v2 sub with
      | .error e => .error e
      | .ok (v2', d') =>
        mapPairsLoop reg fuel strict warn gname es rest
          (aset cur k (.cfg s2 v2')) (ds ++ d')
    | some _ => .error (.py .attributeError)
    | none =>
      match mkDefault es with
      | none => .ok (cur, ds ++ [.couldNotInit es.name gname])
      | some (.cfg s2 dv) =>
        match configUpdate reg fuel strict warn (gname ++ "/" ++ k) s2 dv sub with
        | .error e => .error e
        | .ok (v', d') =>
          mapPairsLoop reg fuel strict warn gname es rest
            (cur ++ [(k, .cfg s2 v')]) (ds ++ d')
      | some _ => .error (.py .attributeError)

/-- Modelled from the spec: updating a config-map field.  Per-key merge
semantics over the input's source pairs; only the explicit non-extending
mode (`extend=false`) then drops the keys absent from the input — the
default mode extends without deleting. -/
def updateConfigMap (reg : Registry) (fuel : Nat) (strict warn : Bool)
    (gname : String) (es : Schema) (prev : List (String × CVal))
    (fc : PyVal) (extendMode : Bool) :
    Except UErr (List (String × CVal) × Diags) :=
  match mapPairsLoop reg fuel strict warn gname es (mapSourcePairs fc) prev [] with
  | .error e => .error e
  | .ok (cur, ds) =>
    .ok ((if extendMode then cur
      else cur.filter (fun kv => (alookup (mapSourcePairs fc) kv.1).isSome)), ds)

/-- The population loop's pointwise behavior: keys absent from the pairs
keep their entry, named existing keys are updated in place, and new keys
are default-constructed then updated. -/
theorem mapPairsLoop_lookup (reg : Registry) (fuel : Nat)
    (strict warn : Bool) (gname : String) (es : Schema)
    (dv0 : List (String × CVal)) (hdv : mkDefaultFields es.fields = some dv0) :
    ∀ (kvs : List (String × PyVal)) (cur : List (String × CVal)) (ds0 ds : Diags)
      (r : List (String × CVal)),
      (kvs.map Prod.fst).Nodup →
      mapPairsLoop reg fuel strict warn gname es kvs cur ds0 = .ok (r, ds) →
      (∀ k, alookup kvs k = none → alookup r k = alookup cur k) ∧
      (∀ k sub s2 v2, alookup kvs k = some sub →
        alookup cur k = some (.cfg s2 v2) →
        ∃ v2' d', configUpdate reg fuel strict warn (gname ++ "/" ++ k) s2 v2 sub =
            .ok (v2', d') ∧ alookup r k = some (.cfg s2 v2')) ∧
      (∀ k sub, alookup kvs k = some sub → alookup cur k = none →
        ∃ v' d', configUpdate reg fuel strict warn (gname ++ "/" ++ k) es dv0 sub =
            .ok (v', d') ∧ alookup r k = some (.cfg es v')) := by
  intro kvs
  induction kvs with
  | nil =>
    intro cur ds0 ds r _ h
    simp [mapPairsLoop] at h
    refine ⟨fun k _ => by rw [h.1], ?_, ?_⟩
    · intro k sub s2 v2 hk
      simp [alookup] at hk
    · intro k sub hk
      simp [alookup] at hk
  | cons p rest ih =>
    obtain ⟨k0, sub0⟩ := p
    intro cur ds0 ds r hnd h
    simp only [List.map_cons, List.nodup_cons] at hnd
    obtain ⟨hk0notin, hndrest⟩ := hnd
    have hrest0 : alookup rest k0 = none := alookup_eq_none_of_not_mem rest k0 hk0notin
    simp only [mapPairsLoop] at h
    cases hcur : alookup cur k0 with
    | some fv =>
      cases fv with
      | cfg s2 v2 =>
        simp only [hcur] at h
        cases hupd : configUpdate reg fuel strict warn (gname ++ "/" ++ k0) s2 v2 sub0 with
        | error e => simp [hupd] at h
        | ok vd =>
          obtain ⟨v2', d'⟩ := vd
          simp only [hupd] at h
          obtain ⟨P1, P2, P3⟩ := ih (aset cur k0 (.cfg s2 v2')) (ds0 ++ d') ds r hndrest h
          refine ⟨?_, ?_, ?_⟩
          · intro k hk
            simp only [alookup] at hk
            by_cases hkk : k0 = k
            · simp [hkk] at hk
            · rw [if_neg hkk] at hk
              rw [P1 k hk, alookup_aset_ne _ _ _ _ (fun hh => hkk hh.symm)]
          · intro k sub s2a v2a hk hcurk
            simp only [alookup] at hk
            by_cases hkk : k0 = k
            · subst hkk
              rw [if_pos rfl] at hk
              obtain rfl : sub0 = sub := by injection hk
              rw [hcur] at hcurk
              obtain ⟨rfl, rfl⟩ : s2 = s2a ∧ v2 = v2a := by
                injection hcurk with hh
                exact ⟨congrArg (fun x => match x with | CVal.cfg s _ => s | _ => s2) hh,
                  congrArg (fun x => match x with | CVal.cfg _ v => v | _ => v2) hh⟩
              refine ⟨v2', d', hupd, ?_⟩
              rw [P1 k0 hrest0, alookup_aset_self, hcur]
              rfl
            · rw [if_neg hkk] at hk
              have : alookup (aset cur k0 (.cfg s2 v2')) k = some (.cfg s2a v2a) := by
                rw [alookup_aset_ne _ _ _ _ (fun hh => hkk hh.symm)]
                exact hcurk
              exact P2 k sub s2a v2a hk this
          · intro k sub hk hcurk
            simp only [alookup] at hk
            by_cases hkk : k0 = k
            · subst hkk
              rw [hcur] at hcurk
              exact absurd hcurk (by simp)
            · rw [if_neg hkk] at hk
              have : alookup (aset cur k0 (.cfg s2 v2')) k = none := by
                rw [alookup_aset_ne _ _ _ _ (fun hh => hkk hh.symm)]
                exact hcurk
              exact P3 k sub hk this
      | raw q => simp [hcur] at h
      | clist xs => simp [hcur] at h
      | virt c rq t vc => simp [hcur] at h
    | none =>
      have hmk : mkDefault es = some (.cfg es dv0) := by
        simp [mkDefault, hdv]
      simp only [hcur, hmk] at h
      cases hupd : configUpdate reg fuel strict warn (gname ++ "/" ++ k0) es dv0 sub0 with
      | error e => simp [hupd] at h
      | ok vd =>
        obtain ⟨v', d'⟩ := vd
        simp only [hupd] at h
        obtain ⟨P1, P2, P3⟩ := ih (cur ++ [(k0, .cfg es v')]) (ds0 ++ d') ds r hndrest h
        have happk : ∀ k, k ≠ k0 →
            alookup (cur ++ [(k0, .cfg es v')]) k = alookup cur k := by
          intro k hkk
          rw [alookup_append]
          cases hl : alookup cur k with
          | some v => rfl
          | none => simp only [alookup, if_neg (fun hh : k0 = k => hkk hh.symm)]
        refine ⟨?_, ?_, ?_⟩
        · intro k hk
          simp only [alookup] at hk
          by_cases hkk : k0 = k
          · simp [hkk] at hk
          · rw [if_neg hkk] at hk
            rw [P1 k hk, happk k (fun hh => hkk hh.symm)]
        · intro k sub s2a v2a hk hcurk
          simp only [alookup] at hk
          by_cases hkk : k0 = k
          · subst hkk
            rw [hcur] at hcurk
            exact absurd hcurk (by simp)
          · rw [if_neg hkk] at hk
            have : alookup (cur ++ [(k0, .cfg es v')]) k = some (.cfg s2a v2a) := by
              rw [happk k (fun hh => hkk hh.symm)]
              exact hcurk
            exact P2 k sub s2a v2a hk this
        · intro k sub hk hcurk
          simp only [alookup] at hk
          by_cases hkk : k0 = k
          · subst hkk
            rw [if_pos rfl] at hk
            obtain rfl : sub0 = sub := by injection hk
            refine ⟨v', d', hupd, ?_⟩
            rw [P1 k0 hrest0, alookup_append, hcur]
            simp [alookup]
          · rw [if_neg hkk] at hk
            have : alookup (cur ++ [(k0, .cfg es v')]) k = none := by
              rw [happk k (fun hh => hkk hh.symm)]
              exact hcurk
            exact P3 k sub hk this

/-- C1 (spec-modelled): updating a config-map field with an input mapping
naming a subset of (or new) keys: entries for keys not mentioned are
preserved in extend mode and dropped only by the explicit `extend=false`
mode; named existing keys are updated in place; new keys get a fresh
default-constructed entry before being updated. -/
theorem claim1_config_map_merge (reg : Registry) (fuel : Nat)
    (strict warn : Bool) (gname : String) (es : Schema)
    (dv0 : List (String × CVal)) (prev : List (String × CVal))
    (kvs : List (String × PyVal)) (extendMode : Bool)
    (r : List (String × CVal)) (ds : Diags)
    (hdv : mkDefaultFields es.fields = some dv0)
    (hnd : (kvs.map Prod.fst).Nodup)
    (h : updateConfigMap reg fuel strict warn gname es prev (.dict kvs)
      extendMode = .ok (r, ds)) :
    (∀ k, alookup kvs k = none →
      alookup r k = if extendMode then alookup prev k else none) ∧
    (∀ k sub s2 v2, alookup kvs k = some sub →
      alookup prev k = some (.cfg s2 v2) →
      ∃ v2' d', configUpdate reg fuel strict warn (gname ++ "/" ++ k) s2 v2 sub =
          .ok (v2', d') ∧ alookup r k = some (.cfg s2 v2')) ∧
    (∀ k sub, alookup kvs k = some sub → alookup prev k = none →
      ∃ v' d', configUpdate reg fuel strict warn (gname ++ "/" ++ k) es dv0 sub =
          .ok (v', d') ∧ alookup r k = some (.cfg es v')) := by
  simp only [updateConfigMap, mapSourcePairs] at h
  cases hL : mapPairsLoop reg fuel strict warn gname es kvs prev [] with
  | error e => simp [hL] at h
  | ok cd =>
    obtain ⟨cur, ds1⟩ := cd
    simp only [hL] at h
    obtain ⟨P1, P2, P3⟩ :=
      mapPairsLoop_lookup reg fuel strict warn gname es dv0 hdv kvs prev [] ds1 cur hnd hL
    have hr : (if extendMode then cur
        else cur.filter (fun kv => (alookup kvs kv.1).isSome)) = r := by
      injection h with h1
      exact congrArg Prod.fst h1
    cases extendMode with
    | true =>
      simp only [if_pos rfl] at hr
      subst hr
      refine ⟨fun k hk => by simp [P1 k hk], P2, P3⟩
    | false =>
      simp only [Bool.false_eq_true, if_neg (by simp : ¬False)] at hr
      subst hr
      refine ⟨?_, ?_, ?_⟩
      · intro k hk
        rw [alookup_filter_keys cur (fun x => (alookup kvs x).isSome) k]
        simp [hk]
      · intro k sub s2 v2 hk hp
        obtain ⟨v2', d', hu, hl⟩ := P2 k sub s2 v2 hk hp
        refine ⟨v2', d', hu, ?_⟩
        rw [alookup_filter_keys cur (fun x => (alookup kvs x).isSome) k]
        simp [hk, hl]
      · intro k sub hk hp
        obtain ⟨v', d', hu, hl⟩ := P3 k sub hk hp
        refine ⟨v', d', hu, ?_⟩
        rw [alookup_filter_keys cur (fun x => (alookup kvs x).isSome) k]
        simp [hk, hl]

/-- Witness fixtures for C1: a two-entry map, an input updating `one`,
creating `two` and not mentioning `keep`. -/
def c1Prev : List (String × CVal) :=
  [("one", .cfg fooS fooD), ("keep", .cfg fooS fooD)]

def c1Input : List (String × PyVal) :=
  [("one", .dict [("b", .int 1)]), ("two", .dict [])]

def c1ResExtend : List (String × CVal) :=
  [("one", .cfg fooS [("a", .raw (.float 5)), ("b", .raw (.int 1)),
    ("c", .raw (.str "hello"))]),
   ("keep", .cfg fooS fooD), ("two", .cfg fooS fooD)]

/-- Witness for C1: in extend mode `keep` survives untouched, `one` is
updated in place, `two` is default-constructed then updated; with
`extend=false` and an empty input mapping the map is cleared. -/
theorem claim1_witness :
    alookup c1ResExtend "keep" = alookup c1Prev "keep" ∧
    (∃ v2' d', configUpdate regT 5 true false ("children" ++ "/" ++ "one")
        fooS fooD (.dict [("b", .int 1)]) = .ok (v2', d') ∧
      alookup c1ResExtend "one" = some (.cfg fooS v2')) ∧
    (∃ v' d', configUpdate regT 5 true false ("children" ++ "/" ++ "two")
        fooS fooD (.dict []) = .ok (v', d') ∧
      alookup c1ResExtend "two" = some (.cfg fooS v')) ∧
    alookup ([] : List (String × CVal)) "keep" = none := by
  have h := claim1_config_map_merge regT 5 true false "children" fooS fooD
    c1Prev c1Input true c1ResExtend [] rfl (by simp [c1Input]) rfl
  have h2 := claim1_config_map_merge regT 5 true false "children" fooS fooD
    c1Prev [] false [] [] rfl (by simp) rfl
  exact ⟨h.1 "keep" rfl, h.2.1 "one" (.dict [("b", .int 1)]) fooS fooD rfl rfl,
    h.2.2 "two" (.dict []) rfl rfl, h2.1 "keep" rfl⟩

/-! ### One-step unfolding and fuel monotonicity of Python equality -/

theorem pyValEqF_list_eq (f : Nat) (xs ys : List PyVal) :
    pyValEqF (f + 1) (.list xs) (.list ys) =
      (xs.length == ys.length &&
        (xs.zip ys).all (fun pr => pyValEqF f pr.1 pr.2)) := rfl

theorem pyValEqF_dict_eq (f : Nat) (xs ys : List (String × PyVal)) :
    pyValEqF (f + 1) (.dict xs) (.dict ys) =
      (xs.length == ys.length &&
        xs.all (fun kv =>
          match alookup ys kv.1 with
          | some w => pyValEqF f kv.2 w
          | none => false)) := rfl

theorem pyEqF_virtL_none_eq (f : Nat) (c : String) (r : Bool)
    (t : Option String) (b : CVal) :
    pyEqF (f + 1) (.virt c r t none) b = false := by
  cases b <;> try rfl
  rename_i vc2
  cases vc2 <;> rfl

theorem pyEqF_virtL_some_eq (f : Nat) (c : String) (r : Bool)
    (t : Option String) (c0 b : CVal) :
    pyEqF (f + 1) (.virt c r t (some c0)) b = pyEqF f c0 b := by
  cases b <;> try rfl
  rename_i vc2
  cases vc2 <;> rfl

theorem pyEqF_virtR_none_eq (f : Nat) (a : CVal) (c : String) (r : Bool)
    (t : Option String) (ha : isVirtVal a = false) :
    pyEqF (f + 1) a (.virt c r t none) = false := by
  cases a with
  | raw p => cases p <;> rfl
  | cfg s v => rfl
  | clist xs => rfl
  | virt c2 r2 t2 vc2 => simp [isVirtVal] at ha

theorem pyEqF_virtR_some_eq (f : Nat) (a : CVal) (c : String) (r : Bool)
    (t : Option String) (c0 : CVal) (ha : isVirtVal a = false) :
    pyEqF (f + 1) a (.virt c r t (some c0)) = pyEqF f a c0 := by
  cases a with
  | raw p => cases p <;> rfl
  | cfg s v => rfl
  | clist xs => rfl
  | virt c2 r2 t2 vc2 => simp [isVirtVal] at ha

theorem pyEqF_raw_raw_eq (f : Nat) (p q : PyVal) :
    pyEqF (f + 1) (.raw p) (.raw q) = pyValEqF f p q := by
  cases p <;> cases q <;> rfl

theorem pyEqF_cfg_cfg_eq (f : Nat) (s1 s2 : Schema)
    (v1 v2 : List (String × CVal)) :
    pyEqF (f + 1) (.cfg s1 v1) (.cfg s2 v2) =
      (s1.name == s2.name && v1.length == v2.length &&
        (v1.zip v2).all (fun pr => pr.1.1 == pr.2.1 && pyEqF f pr.1.2 pr.2.2)) := rfl

theorem pyEqF_clist_clist_eq (f : Nat) (xs ys : List CVal) :
    pyEqF (f + 1) (.clist xs) (.clist ys) =
      (xs.length == ys.length && (xs.zip ys).all (fun pr => pyEqF f pr.1 pr.2)) := rfl

theorem pyEqF_raw_cfg_eq (f : Nat) (p : PyVal) (s : Schema)
    (v : List (String × CVal)) :
    pyEqF (f + 1) (.raw p) (.cfg s v) = false := by
  cases p <;> rfl

theorem pyEqF_cfg_raw_eq (f : Nat) (p : PyVal) (s : Schema)
    (v : List (String × CVal)) :
    pyEqF (f + 1) (.cfg s v) (.raw p) = false := by
  cases p <;> rfl

theorem pyValEqF_mono : ∀ (f : Nat) (a b : PyVal),
    pyValEqF f a b = true → pyValEqF (f + 1) a b = true := by
  intro f
  induction f with
  | zero => intro a b h; simp [pyValEqF] at h
  | succ f ih =>
    intro a b h
    cases a <;> cases b <;> (try exact h) <;>
      first
      | (rename_i xs ys
         rw [pyValEqF_list_eq] at h
         rw [pyValEqF_list_eq]
         simp only [Bool.and_eq_true, List.all_eq_true] at h ⊢
         exact ⟨h.1, fun pr hm => ih pr.1 pr.2 (h.2 pr hm)⟩)
      | (rename_i xs ys
         rw [pyValEqF_dict_eq] at h
         rw [pyValEqF_dict_eq]
         simp only [Bool.and_eq_true, List.all_eq_true] at h ⊢
         refine ⟨h.1, fun kv hm => ?_⟩
         have h2 := h.2 kv hm
         cases hl : alookup ys kv.1 with
         | none =>
           rw [hl] at h2
           exact absurd h2 (by simp)
         | some w =>
           rw [hl] at h2
           have h2a : pyValEqF f kv.2 w = true := h2
           exact ih kv.2 w h2a)

theorem pyEqF_mono : ∀ (f : Nat) (a b : CVal),
    pyEqF f a b = true → pyEqF (f + 1) a b = true := by
  intro f
  induction f with
  | zero => intro a b h; simp [pyEqF] at h
  | succ f ih =>
    intro a b h
    cases a with
    | virt c r t vc =>
      cases vc with
      | none => rw [pyEqF_virtL_none_eq] at h; exact absurd h (by simp)
      | some c0 =>
        rw [pyEqF_virtL_some_eq] at h
        rw [pyEqF_virtL_some_eq]
        exact ih c0 b h
    | raw p =>
      cases b with
      | virt c2 r2 t2 vc2 =>
        cases vc2 with
        | none =>
          rw [pyEqF_virtR_none_eq f (.raw p) c2 r2 t2 rfl] at h
          exact absurd h (by simp)
        | some c0 =>
          rw [pyEqF_virtR_some_eq f (.raw p) c2 r2 t2 c0 rfl] at h
          rw [pyEqF_virtR_some_eq (f + 1) (.raw p) c2 r2 t2 c0 rfl]
          exact ih _ _ h
      | raw q =>
        rw [pyEqF_raw_raw_eq] at h
        rw [pyEqF_raw_raw_eq]
        exact pyValEqF_mono f p q h
      | cfg s2 v2 => rw [pyEqF_raw_cfg_eq] at h; exact absurd h (by simp)
      | clist ys => cases p <;> exact h
    | cfg s1 v1 =>
      cases b with
      | virt c2 r2 t2 vc2 =>
        cases vc2 with
        | none =>
          rw [pyEqF_virtR_none_eq f (.cfg s1 v1) c2 r2 t2 rfl] at h
          exact absurd h (by simp)
        | some c0 =>
          rw [pyEqF_virtR_some_eq f (.cfg s1 v1) c2 r2 t2 c0 rfl] at h
          rw [pyEqF_virtR_some_eq (f + 1) (.cfg s1 v1) c2 r2 t2 c0 rfl]
          exact ih _ _ h
      | cfg s2 v2 =>
        rw [pyEqF_cfg_cfg_eq] at h
        rw [pyEqF_cfg_cfg_eq]
        simp only [Bool.and_eq_true, List.all_eq_true] at h ⊢
        exact ⟨⟨h.1.1, h.1.2⟩, fun pr hm =>
          ⟨(h.2 pr hm).1, ih pr.1.2 pr.2.2 (h.2 pr hm).2⟩⟩
      | raw q => rw [pyEqF_cfg_raw_eq] at h; exact absurd h (by simp)
      | clist ys => exact h
    | clist xs =>
      cases b with
      | virt c2 r2 t2 vc2 =>
        cases vc2 with
        | none =>
          rw [pyEqF_virtR_none_eq f (.clist xs) c2 r2 t2 rfl] at h
          exact absurd h (by simp)
        | some c0 =>
          rw [pyEqF_virtR_some_eq f (.clist xs) c2 r2 t2 c0 rfl] at h
          rw [pyEqF_virtR_some_eq (f + 1) (.clist xs) c2 r2 t2 c0 rfl]
          exact ih _ _ h
      | clist ys =>
        rw [pyEqF_clist_clist_eq] at h
        rw [pyEqF_clist_clist_eq]
        simp only [Bool.and_eq_true, List.all_eq_true] at h ⊢
        exact ⟨h.1, fun pr hm => ih pr.1 pr.2 (h.2 pr hm)⟩
      | raw q => cases q <;> exact h
      | cfg s2 v2 => exact h

theorem pyEqF_le {f g : Nat} (hfg : f ≤ g) (a b : CVal)
    (h : pyEqF f a b = true) : pyEqF g a b = true := by
  induction hfg with
  | refl => exact h
  | step _ ih => exact pyEqF_mono _ a b ih

/-! ### Round-trip (C9): relations and supporting lemmas -/

theorem alookup_of_mem_nodup {α : Type _} : ∀ (l : List (String × α))
    (nd : String × α), (l.map Prod.fst).Nodup → nd ∈ l →
    alookup l nd.1 = some nd.2 := by
  intro l
  induction l with
  | nil => intro nd hnd hm; simp at hm
  | cons hd tl ih =>
    obtain ⟨k', v'⟩ := hd
    intro nd hnd hm
    simp only [List.map_cons, List.nodup_cons] at hnd
    rcases List.mem_cons.1 hm with hm | hm
    · subst hm; simp [alookup]
    · have hk : k' ≠ nd.1 := by
        intro hh
        exact hnd.1 (hh ▸ List.mem_map_of_mem Prod.fst hm)
      simp only [alookup, if_neg hk]
      exact ih nd hnd.2 hm

theorem alookup_append_left {α : Type _} (l1 l2 : List (String × α))
    (k : String) (v : α) (h : alookup l1 k = some v) :
    alookup (l1 ++ l2) k = some v := by
  rw [alookup_append, h]

theorem aset_append_left {α : Type _} (l1 l2 : List (String × α))
    (k : String) (v : α) (h : k ∉ l1.map Prod.fst) :
    aset (l1 ++ l2) k v = l1 ++ aset l2 k v := by
  induction l1 with
  | nil => rfl
  | cons hd tl ih =>
    obtain ⟨k', v'⟩ := hd
    simp only [List.map_cons, List.mem_cons, not_or] at h
    simp only [List.cons_append, aset, if_neg (fun hh : k' = k => h.1 hh.symm)]
    exact congrArg (List.cons (k', v')) (ih h.2)

theorem dset_append_right {α : Type _} (l1 l2 : List (String × α))
    (k : String) (v : α) (h : k ∉ l1.map Prod.fst) :
    dset (l1 ++ l2) k v = l1 ++ dset l2 k v := by
  have h1 : alookup l1 k = none := alookup_eq_none_of_not_mem l1 k h
  simp only [dset, alookup_append, h1]
  cases h2 : alookup l2 k with
  | none => simp [List.append_assoc]
  | some w => simp [aset_append_left l1 l2 k v h]

theorem alookup_dset_self {α : Type _} (l : List (String × α)) (k : String)
    (v : α) : alookup (dset l k v) k = some v := by
  simp only [dset]
  cases h : alookup l k with
  | none =>
    rw [alookup_append, h]
    simp [alookup]
  | some w =>
    rw [alookup_aset_self, h]
    rfl

theorem mem_aset {α : Type _} : ∀ (l : List (String × α)) (k : String)
    (v : α) (kv : String × α), kv ∈ aset l k v → kv ∈ l ∨ kv = (k, v) := by
  intro l k v
  induction l with
  | nil =>
    intro kv hm
    simp [aset] at hm
  | cons hd tl ih =>
    obtain ⟨k', v'⟩ := hd
    intro kv hm
    by_cases hk : k' = k
    · simp only [aset, if_pos hk, List.mem_cons] at hm
      rcases hm with hm | hm
      · right; rw [hm, hk]
      · left; exact List.mem_cons_of_mem _ hm
    · simp only [aset, if_neg hk, List.mem_cons] at hm
      rcases hm with hm | hm
      · left; exact hm ▸ List.mem_cons_self _ _
      · rcases ih kv hm with h2 | h2
        · left; exact List.mem_cons_of_mem _ h2
        · right; exact h2

theorem mem_dset {α : Type _} (l : List (String × α)) (k : String) (v : α)
    (kv : String × α) (hm : kv ∈ dset l k v) : kv ∈ l ∨ kv = (k, v) := by
  simp only [dset] at hm
  cases hl : alookup l k with
  | none =>
    rw [hl] at hm
    rcases List.mem_append.1 hm with hm | hm
    · exact Or.inl hm
    · right; simpa using hm
  | some w =>
    rw [hl] at hm
    exact mem_aset l k v kv hm

theorem dset_typeonly {α : Type _} (l : List (String × α)) (v : α)
    (h : ∀ kv ∈ l, kv.1 = "type") :
    ∀ kv ∈ dset l "type" v, kv.1 = "type" := by
  intro kv hm
  rcases mem_dset l "type" v kv hm with h2 | h2
  · exact h kv h2
  · rw [h2]

/-- The update-side recovery property of a dumped field value: feeding it
back through `Config.update`'s field step on a fresh instance yields a
value Python-equal to the one that was dumped. -/
def FieldRec (reg : Registry) (fd : FieldDecl) (sv xv : CVal)
    (dumped : PyVal) : Prop :=
  ∀ (g : Nat) (parent : String) (s' : Schema) (kvs : List (String × PyVal))
    (vals0 : List (String × CVal)) (ds0 : Diags)
    (out : List (String × CVal) × Diags),
    alookup kvs fd.name = some dumped →
    alookup vals0 fd.name = some sv →
    updateField reg g true false parent s' kvs fd (vals0, ds0) = .ok out →
    ∃ (v' : CVal) (F : Nat), out.1 = aset vals0 fd.name v' ∧ pyEqF F v' xv = true

/-- Document fields, pointwise: each dumped entry recovers its field. -/
inductive FieldsRec (reg : Registry) : List FieldDecl →
    List (String × CVal) → List (String × CVal) → List (String × PyVal) → Prop
  | nil : FieldsRec reg [] [] [] []
  | cons (fd : FieldDecl) (sv xv : CVal) (dumped : PyVal)
      (fds : List FieldDecl) (svs xvs : List (String × CVal))
      (doc : List (String × PyVal)) :
      FieldRec reg fd sv xv dumped →
      FieldsRec reg fds svs xvs doc →
      FieldsRec reg (fd :: fds) ((fd.name, sv) :: svs) ((fd.name, xv) :: xvs)
        ((fd.name, dumped) :: doc)

/-- List elements, pointwise: each `asdict`-produced element document
recovers a fresh default-constructed element. -/
inductive ElemsRec (reg : Registry) (es : Schema) :
    List CVal → List PyVal → Prop
  | nil : ElemsRec reg es [] []
  | cons (xv : List (String × CVal)) (edv : List (String × CVal))
      (doc : List (String × PyVal)) (xs : List CVal) (docs : List PyVal) :
      mkDefaultFields es.fields = some edv →
      (es.fields.map FieldDecl.name).Nodup →
      FieldsRec reg es.fields edv xv doc →
      ElemsRec reg es xs docs →
      ElemsRec reg es (.cfg es xv :: xs) (.dict doc :: docs)

theorem fieldsRec_keys (reg : Registry) :
    ∀ {fds : List FieldDecl} {svs xvs : List (String × CVal)}
      {doc : List (String × PyVal)},
    FieldsRec reg fds svs xvs doc →
    svs.map Prod.fst = fds.map FieldDecl.name ∧
    xvs.map Prod.fst = fds.map FieldDecl.name ∧
    doc.map Prod.fst = fds.map FieldDecl.name := by
  intro fds svs xvs doc h
  induction h with
  | nil => exact ⟨rfl, rfl, rfl⟩
  | cons fd sv xv dumped fds svs xvs doc _ _ ih =>
    simp [ih.1, ih.2.1, ih.2.2]

mutual

/-- Round-trip hypotheses for one field of a Schema Node: relates the
field declaration, the value a freshly constructed instance starts with,
and the instance's current value. -/
inductive RTF (reg : Registry) : FieldDecl → CVal → CVal → Prop
  /-- A scalar leaf whose strict re-coercion of the dumped value succeeds
  and yields a Python-equal value. -/
  | leaf (n : String) (ty : FieldType) (conv : Option ConverterId)
      (d : Option CVal) (dp p p' : PyVal) (f0 : Nat) :
      isListP dp = false →
      parseLeafVal (.mk n ty false conv d) p true = .ok p' →
      pyValEqF f0 p' p = true →
      RTF reg (.mk n ty false conv d) (.raw dp) (.raw p)
  /-- A nested static Schema Node of the same dataclass. -/
  | nested (n : String) (ty : FieldType) (conv : Option ConverterId)
      (d : Option CVal) (s1 : Schema) (sv xv : List (String × CVal)) :
      RTC reg s1 sv xv →
      RTF reg (.mk n ty false conv d) (.cfg s1 sv) (.cfg s1 xv)
  /-- A config list: the fresh value is list-shaped, the elements are
  slot-free instances of the element schema. -/
  | listfld (n : String) (es : Schema) (conv : Option ConverterId)
      (d : Option CVal) (dstart : CVal) (xs : List CVal) :
      isListVal dstart = true →
      isCfgVal dstart = false →
      RTL reg es xs →
      RTF reg (.mk n (.fConfigList es) false conv d) dstart (.clist xs)
  /-- A Polymorphic Slot resolved to a registered, default-constructible
  tag compatible with the held instance. -/
  | slotHeld (n : String) (ty : FieldType) (conv : Option ConverterId)
      (d : Option CVal) (cat : String) (req0 : Bool) (t0 : Option String)
      (req : Bool) (tag : String) (si : Schema)
      (dvi xvi : List (String × CVal)) :
      tag ≠ "" →
      factoryCreate reg cat (some tag) = .ok (some (.cfg si dvi), []) →
      RTC reg si dvi xvi →
      RTF reg (.mk n ty true conv d) (.virt cat req0 t0 none)
        (.virt cat req (some tag) (some (.cfg si xvi)))
  /-- A bare `Config` assigned into a slot field, whose type is registered
  (so `dump` injects its tag) under the slot's category. -/
  | slotBare (n : String) (ty : FieldType) (conv : Option ConverterId)
      (d : Option CVal) (cat cat2 : String) (req0 : Bool)
      (t0 : Option String) (tag : String) (s2 : Schema)
      (dv2 xv2 : List (String × CVal)) :
      tag ≠ "" →
      getInfo reg s2.name = some (cat2, tag) →
      factoryCreate reg cat (some tag) = .ok (some (.cfg s2 dv2), []) →
      RTC reg s2 dv2 xv2 →
      RTF reg (.mk n ty true conv d) (.virt cat req0 t0 none) (.cfg s2 xv2)

/-- Round-trip hypotheses for a field list with its aligned start and
current values. -/
inductive RTFs (reg : Registry) : List FieldDecl →
    List (String × CVal) → List (String × CVal) → Prop
  | nil : RTFs reg [] [] []
  | cons (fd : FieldDecl) (sv xv : CVal) (fds : List FieldDecl)
      (svs xvs : List (String × CVal)) :
      RTF reg fd sv xv →
      RTFs reg fds svs xvs →
      RTFs reg (fd :: fds) ((fd.name, sv) :: svs) ((fd.name, xv) :: xvs)

/-- Round-trip hypotheses for a Schema Node instance: distinct field
names, no field named `type` (the slot tag key), and per-field
hypotheses. -/
inductive RTC (reg : Registry) : Schema →
    List (String × CVal) → List (String × CVal) → Prop
  | mk (nm : String) (fds : List FieldDecl)
      (svs xvs : List (String × CVal)) :
      (fds.map FieldDecl.name).Nodup →
      "type" ∉ fds.map FieldDecl.name →
      RTFs reg fds svs xvs →
      RTC reg (.mk nm fds) svs xvs

/-- Round-trip hypotheses for config-list elements: slot-free instances
of the (default-constructible) element schema, with the asdict-relation
hypotheses. -/
inductive RTL (reg : Registry) : Schema → List CVal → Prop
  | nil (es : Schema) : RTL reg es []
  | cons (es : Schema) (xv edv : List (String × CVal)) (xs : List CVal) :
      mkDefaultFields es.fields = some edv →
      RTAC reg es edv xv →
      RTL reg es xs →
      RTL reg es (.cfg es xv :: xs)

/-- Like `RTF`, for values reached only through `dataclasses.asdict`
(config-list elements): no slot fields, since `asdict` would keep the
`VirtualConfig` object in the tree. -/
inductive RTAF (reg : Registry) : FieldDecl → CVal → CVal → Prop
  | leaf (n : String) (ty : FieldType) (conv : Option ConverterId)
      (d : Option CVal) (dp p p' : PyVal) (f0 : Nat) :
      isListP dp = false →
      parseLeafVal (.mk n ty false conv d) p true = .ok p' →
      pyValEqF f0 p' p = true →
      RTAF reg (.mk n ty false conv d) (.raw dp) (.raw p)
  | nested (n : String) (ty : FieldType) (conv : Option ConverterId)
      (d : Option CVal) (s1 : Schema) (sv xv : List (String × CVal)) :
      RTAC reg s1 sv xv →
      RTAF reg (.mk n ty false conv d) (.cfg s1 sv) (.cfg s1 xv)
  | listfld (n : String) (es : Schema) (conv : Option ConverterId)
      (d : Option CVal) (dstart : CVal) (xs : List CVal) :
      isListVal dstart = true →
      isCfgVal dstart = false →
      RTL reg es xs →
      RTAF reg (.mk n (.fConfigList es) false conv d) dstart (.clist xs)

/-- `RTFs` for asdict-reached values. -/
inductive RTAFs (reg : Registry) : List FieldDecl →
    List (String × CVal) → List (String × CVal) → Prop
  | nil : RTAFs reg [] [] []
  | cons (fd : FieldDecl) (sv xv : CVal) (fds : List FieldDecl)
      (svs xvs : List (String × CVal)) :
      RTAF reg fd sv xv →
      RTAFs reg fds svs xvs →
      RTAFs reg (fd :: fds) ((fd.name, sv) :: svs) ((fd.name, xv) :: xvs)

/-- `RTC` for asdict-reached values. -/
inductive RTAC (reg : Registry) : Schema →
    List (String × CVal) → List (String × CVal) → Prop
  | mk (nm : String) (fds : List FieldDecl)
      (svs xvs : List (String × CVal)) :
      (fds.map FieldDecl.name).Nodup →
      RTAFs reg fds svs xvs →
      RTAC reg (.mk nm fds) svs xvs

end

/-! ### Round-trip (C9): keys, fuel assembly and fold equations -/

theorem alookup_cons_self {α : Type _} (k : String) (v : α)
    (t : List (String × α)) : alookup ((k, v) :: t) k = some v := by
  simp [alookup]

theorem alookup_cons_ne {α : Type _} (k k' : String) (v : α)
    (t : List (String × α)) (h : k' ≠ k) :
    alookup ((k', v) :: t) k = alookup t k := by
  simp [alookup, h]

theorem aset_cons_self {α : Type _} (k : String) (v w : α)
    (t : List (String × α)) : aset ((k, v) :: t) k w = (k, w) :: t := by
  simp [aset]

theorem aset_cons_ne {α : Type _} (k k' : String) (v w : α)
    (t : List (String × α)) (h : k' ≠ k) :
    aset ((k', v) :: t) k w = (k', v) :: aset t k w := by
  simp [aset, h]

theorem mkDefaultFields_keys : ∀ (fds : List FieldDecl)
    (dvs : List (String × CVal)), mkDefaultFields fds = some dvs →
    dvs.map Prod.fst = fds.map FieldDecl.name := by
  intro fds
  induction fds with
  | nil => intro dvs h; cases h; rfl
  | cons fd rest ih =>
    intro dvs h
    simp only [mkDefaultFields] at h
    cases hd : fd.default with
    | none => rw [hd] at h; cases h
    | some v =>
      rw [hd] at h
      cases ht : mkDefaultFields rest with
      | none => rw [ht] at h; cases h
      | some tl =>
        rw [ht] at h
        cases h
        simp [ih tl ht]

theorem rtfs_keys (reg : Registry) : ∀ (fds : List FieldDecl)
    (svs xvs : List (String × CVal)), RTFs reg fds svs xvs →
    svs.map Prod.fst = fds.map FieldDecl.name ∧
    xvs.map Prod.fst = fds.map FieldDecl.name := by
  intro fds
  induction fds with
  | nil => intro svs xvs h; cases h; exact ⟨rfl, rfl⟩
  | cons fd rest ih =>
    intro svs xvs h
    cases h with
    | cons fd sv xv fds svs xvs hf hfs =>
      obtain ⟨h1, h2⟩ := ih _ _ hfs
      simp [h1, h2]

theorem exists_common_fuel {α : Type _} (p q : α → CVal) :
    ∀ (l : List α), (∀ x ∈ l, cvalEq (p x) (q x)) →
    ∃ F, ∀ x ∈ l, pyEqF F (p x) (q x) = true := by
  intro l
  induction l with
  | nil => intro _; exact ⟨0, fun x hx => absurd hx (List.not_mem_nil x)⟩
  | cons a t ih =>
    intro h
    obtain ⟨F1, h1⟩ := h a (List.mem_cons_self a t)
    obtain ⟨F2, h2⟩ := ih (fun x hx => h x (List.mem_cons_of_mem a hx))
    refine ⟨max F1 F2, ?_⟩
    intro x hx
    rcases List.mem_cons.1 hx with hx | hx
    · subst hx; exact pyEqF_le (Nat.le_max_left F1 F2) _ _ h1
    · exact pyEqF_le (Nat.le_max_right F1 F2) _ _ (h2 x hx)

theorem zip_pointwise :
    ∀ (xvs v : List (String × CVal)),
    v.map Prod.fst = xvs.map Prod.fst →
    (xvs.map Prod.fst).Nodup →
    (∀ nd ∈ xvs, ∃ w, alookup v nd.1 = some w ∧ cvalEq w nd.2) →
    ∀ pr ∈ v.zip xvs, pr.1.1 = pr.2.1 ∧ cvalEq pr.1.2 pr.2.2 := by
  intro xvs
  induction xvs with
  | nil =>
    intro v hk hnd hpt pr hpr
    simp at hpr
  | cons hd tl ih =>
    obtain ⟨k1, x1⟩ := hd
    intro v hk hnd hpt pr hpr
    cases v with
    | nil => simp at hpr
    | cons w1p v2 =>
      obtain ⟨kw, w1⟩ := w1p
      simp only [List.map_cons, List.cons.injEq] at hk
      obtain ⟨hkk, hkr⟩ := hk
      subst hkk
      simp only [List.map_cons, List.nodup_cons] at hnd
      rw [List.zip_cons_cons] at hpr
      rcases List.mem_cons.1 hpr with hpr | hpr
      · subst hpr
        refine ⟨rfl, ?_⟩
        obtain ⟨w, hw, he⟩ := hpt (kw, x1) (List.mem_cons_self _ _)
        rw [alookup_cons_self] at hw
        cases hw
        exact he
      · refine ih v2 hkr hnd.2 ?_ pr hpr
        intro nd hnd2
        obtain ⟨w, hw, he⟩ := hpt nd (List.mem_cons_of_mem _ hnd2)
        have hne : kw ≠ nd.1 := by
          intro hh
          exact hnd.1 (hh ▸ List.mem_map_of_mem Prod.fst hnd2)
        rw [alookup_cons_ne _ _ _ _ hne] at hw
        exact ⟨w, hw, he⟩

theorem cfgEq_of_pointwise (s : Schema) (v xvs : List (String × CVal))
    (hk : v.map Prod.fst = xvs.map Prod.fst)
    (hnd : (xvs.map Prod.fst).Nodup)
    (hpt : ∀ nd ∈ xvs, ∃ w, alookup v nd.1 = some w ∧ cvalEq w nd.2) :
    cvalEq (.cfg s v) (.cfg s xvs) := by
  have hz := zip_pointwise xvs v hk hnd hpt
  obtain ⟨F, hF⟩ := exists_common_fuel (fun pr => pr.1.2) (fun pr => pr.2.2)
    (v.zip xvs) (fun pr hpr => (hz pr hpr).2)
  refine ⟨F + 1, ?_⟩
  rw [pyEqF_cfg_cfg_eq]
  have hlen : v.length = xvs.length := by
    have h2 := congrArg List.length hk
    simpa using h2
  simp only [Bool.and_eq_true, beq_iff_eq, List.all_eq_true]
  refine ⟨⟨trivial, hlen⟩, ?_⟩
  intro pr hpr
  exact ⟨(hz pr hpr).1, hF pr hpr⟩

theorem clistEq_of_pointwise (l xs : List CVal)
    (hlen : l.length = xs.length)
    (hpt : ∀ pr ∈ l.zip xs, cvalEq pr.1 pr.2) :
    cvalEq (.clist l) (.clist xs) := by
  obtain ⟨F, hF⟩ := exists_common_fuel Prod.fst Prod.snd (l.zip xs) hpt
  refine ⟨F + 1, ?_⟩
  rw [pyEqF_clist_clist_eq]
  simp only [Bool.and_eq_true, beq_iff_eq, List.all_eq_true]
  exact ⟨hlen, hF⟩

theorem updLoop_ok_cons {σ : Type _} (step : FieldDecl → σ → Except UErr σ)
    (fd : FieldDecl) (fds : List FieldDecl) (st out : σ)
    (h : updLoop step (fd :: fds) st = .ok out) :
    ∃ st2, step fd st = .ok st2 ∧ updLoop step fds st2 = .ok out := by
  simp only [updLoop] at h
  cases hs : step fd st with
  | error e =>
    simp only [hs] at h
    exact Except.noConfusion h
  | ok st2 =>
    simp only [hs] at h
    exact ⟨st2, rfl, h⟩

theorem collectFields_map_some : ∀ (l : List (String × PyVal)),
    collectFields (l.map (fun nd => (nd.1, some nd.2))) = some l := by
  intro l
  induction l with
  | nil => rfl
  | cons hd tl ih => simp [collectFields, ih]

theorem collectFields_append : ∀ (l1 l2 : List (String × Option PyVal)),
    collectFields (l1 ++ l2) =
      match collectFields l1, collectFields l2 with
      | some a, some b => some (a ++ b)
      | _, _ => none := by
  intro l1 l2
  induction l1 with
  | nil =>
    simp only [List.nil_append, collectFields]
    cases collectFields l2 <;> rfl
  | cons hd tl ih =>
    obtain ⟨n, op⟩ := hd
    cases op with
    | none => rfl
    | some p =>
      rw [List.cons_append]
      show (collectFields (tl ++ l2)).map (fun t => (n, p) :: t) =
        match (collectFields tl).map (fun t => (n, p) :: t),
            collectFields l2 with
        | some a, some b => some (a ++ b)
        | _, _ => none
      rw [ih]
      cases collectFields tl <;> cases collectFields l2 <;> rfl

/-- The `type` entry appended to `asdict`'s output by
`if add_type and info: values["type"] = info[1]`, as a plain document
key-value list. -/
def typeTail (addType : Bool) (info : Option (String × String)) :
    List (String × PyVal) :=
  match addType, info with
  | true, some i => [("type", .str i.2)]
  | _, _ => []

theorem typeTail_false (info : Option (String × String)) :
    typeTail false info = [] := by
  cases info <;> rfl

theorem withTypeKey_eq (addType : Bool) (info : Option (String × String))
    (base : List (String × Option PyVal)) :
    withTypeKey addType info base =
      base ++ (typeTail addType info).map (fun nd => (nd.1, some nd.2)) := by
  cases addType <;> cases info <;> simp [withTypeKey, typeTail]

theorem except_mapM_loop {α β : Type _} (fn : α → Except UErr β) :
    ∀ (l : List α) (acc : List β),
    List.mapM.loop fn l acc = (List.mapM fn l).map (fun bs => acc.reverse ++ bs) := by
  intro l
  induction l with
  | nil => intro acc; simp [List.mapM.loop, List.mapM, pure, Except.pure, Except.map]
  | cons a t ih =>
    intro acc
    simp only [List.mapM.loop, List.mapM] at ih ⊢
    cases hfa : fn a with
    | error e => simp [hfa, Except.bind, Except.map, bind]
    | ok b =>
      simp only [hfa, bind, Except.bind]
      rw [ih (b :: acc), ih [b]]
      cases List.mapM.loop fn t [] with
      | error e => rfl
      | ok bs => simp [Except.map, List.reverse_cons, List.append_assoc]

theorem except_mapM_cons {α β : Type _} (fn : α → Except UErr β) (a : α)
    (l : List α) :
    List.mapM fn (a :: l) =
      match fn a with
      | .error e => .error e
      | .ok b =>
        match List.mapM fn l with
        | .error e => .error e
        | .ok bs => .ok (b :: bs) := by
  show List.mapM.loop fn (a :: l) [] = _
  simp only [List.mapM.loop]
  cases hfa : fn a with
  | error e => simp [hfa, bind, Except.bind]
  | ok b =>
    simp only [hfa, bind, Except.bind]
    rw [except_mapM_loop]
    cases List.mapM fn l with
    | error e => rfl
    | ok bs => simp [Except.map]

theorem option_mapM_loop {α β : Type _} (fn : α → Option β) :
    ∀ (l : List α) (acc : List β),
    List.mapM.loop fn l acc = (List.mapM fn l).map (fun bs => acc.reverse ++ bs) := by
  intro l
  induction l with
  | nil => intro acc; simp [List.mapM.loop, List.mapM, pure, Option.map]
  | cons a t ih =>
    intro acc
    simp only [List.mapM.loop, List.mapM] at ih ⊢
    cases hfa : fn a with
    | none => simp [hfa, bind, Option.bind, Option.map]
    | some b =>
      simp only [hfa, bind, Option.bind]
      rw [ih (b :: acc), ih [b]]
      cases List.mapM.loop fn t [] with
      | none => rfl
      | some bs => simp [Option.map, List.reverse_cons, List.append_assoc]

theorem option_mapM_cons {α β : Type _} (fn : α → Option β) (a : α)
    (l : List α) :
    List.mapM fn (a :: l) =
      match fn a with
      | none => none
      | some b =>
        match List.mapM fn l with
        | none => none
        | some bs => some (b :: bs) := by
  show List.mapM.loop fn (a :: l) [] = _
  simp only [List.mapM.loop]
  cases hfa : fn a with
  | none => simp [hfa, bind, Option.bind]
  | some b =>
    simp only [hfa, bind, Option.bind]
    rw [option_mapM_loop]
    cases List.mapM fn l with
    | none => rfl
    | some bs => simp [Option.map]

theorem asdictFields_nil_eq (g : Nat) : asdictFields (g + 1) [] = .ok [] := rfl

theorem asdictFields_cons_eq (g : Nat) (nv : String × CVal)
    (rest : List (String × CVal)) :
    asdictFields (g + 1) (nv :: rest) =
      match asdictVal g nv.2 with
      | .error e => .error e
      | .ok r =>
        match asdictFields (g + 1) rest with
        | .error e => .error e
        | .ok out => .ok ((nv.1, r) :: out) := by
  have hdef : ∀ (l : List (String × CVal)), asdictFields (g + 1) l =
      List.mapM (fun nv => (asdictVal g nv.2).map (fun p => (nv.1, p))) l :=
    fun l => rfl
  rw [hdef, except_mapM_cons, ← hdef]
  cases hv : asdictVal g nv.2 with
  | error e => simp only [hv, Except.map]
  | ok r =>
    simp only [hv, Except.map]
    cases asdictFields (g + 1) rest with
    | error e => rfl
    | ok bs => rfl

/-! ### Round-trip (C9): the update side recovers dumped fields -/

theorem updLoop_recover (reg : Registry) :
    ∀ {fds : List FieldDecl} {svs xvs : List (String × CVal)}
      {doc : List (String × PyVal)},
    FieldsRec reg fds svs xvs doc →
    ∀ (g : Nat) (parent : String) (s2 : Schema)
      (kvs : List (String × PyVal)) (vals0 : List (String × CVal))
      (ds0 : Diags) (out : List (String × CVal) × Diags),
    (fds.map FieldDecl.name).Nodup →
    (∀ nd ∈ doc, alookup kvs nd.1 = some nd.2) →
    (∀ nd ∈ svs, alookup vals0 nd.1 = some nd.2) →
    updLoop (fun fd st => updateField reg g true false parent s2 kvs fd st)
        fds (vals0, ds0) = .ok out →
    out.1.map Prod.fst = vals0.map Prod.fst ∧
    (∀ k, k ∉ fds.map FieldDecl.name → alookup out.1 k = alookup vals0 k) ∧
    (∀ nd ∈ xvs, ∃ w, alookup out.1 nd.1 = some w ∧ cvalEq w nd.2) := by
  intro fds svs xvs doc hfr
  induction hfr with
  | nil =>
    intro g parent s2 kvs vals0 ds0 out hnd hdoc hsv hloop
    cases hloop
    exact ⟨rfl, fun k _ => rfl, fun nd hm => absurd hm (List.not_mem_nil nd)⟩
  | cons fd sv xv dumped fds svs xvs doc hrec hrest ih =>
    intro g parent s2 kvs vals0 ds0 out hnd hdoc hsv hloop
    obtain ⟨st2, hstep, hloop2⟩ := updLoop_ok_cons _ _ _ _ _ hloop
    simp only [List.map_cons, List.nodup_cons] at hnd
    have hkd : alookup kvs fd.name = some dumped :=
      hdoc (fd.name, dumped) (List.mem_cons_self _ _)
    have hvs : alookup vals0 fd.name = some sv :=
      hsv (fd.name, sv) (List.mem_cons_self _ _)
    obtain ⟨w, F, hout1, heq⟩ := hrec g parent s2 kvs vals0 ds0 st2 hkd hvs hstep
    obtain ⟨hks, hkx, hkdoc⟩ := fieldsRec_keys reg hrest
    have hsv2 : ∀ nd ∈ svs, alookup st2.1 nd.1 = some nd.2 := by
      intro nd hm
      have hmem : nd.1 ∈ fds.map FieldDecl.name := by
        rw [← hks]; exact List.mem_map_of_mem Prod.fst hm
      have hne : nd.1 ≠ fd.name := fun hh => hnd.1 (hh ▸ hmem)
      rw [hout1, alookup_aset_ne _ _ _ _ hne]
      exact hsv nd (List.mem_cons_of_mem _ hm)
    have hdoc2 : ∀ nd ∈ doc, alookup kvs nd.1 = some nd.2 :=
      fun nd hm => hdoc nd (List.mem_cons_of_mem _ hm)
    obtain ⟨ihk, ihpres, ihpt⟩ :=
      ih g parent s2 kvs st2.1 st2.2 out hnd.2 hdoc2 hsv2 hloop2
    refine ⟨?_, ?_, ?_⟩
    · rw [ihk, hout1, aset_keys]
    · intro k hk
      simp only [List.map_cons, List.mem_cons, not_or] at hk
      rw [ihpres k hk.2, hout1, alookup_aset_ne _ _ _ _ hk.1]
    · intro nd hm
      rcases List.mem_cons.1 hm with hm | hm
      · subst hm
        refine ⟨w, ?_, F, heq⟩
        rw [ihpres fd.name hnd.1, hout1, alookup_aset_self, hvs]
        rfl
      · exact ihpt nd hm

theorem FR_leaf (reg : Registry) (n : String) (ty : FieldType)
    (conv : Option ConverterId) (d : Option CVal) (dp p p2 : PyVal) (f0 : Nat)
    (hnl : isListP dp = false)
    (hpl : parseLeafVal (.mk n ty false conv d) p true = .ok p2)
    (heq : pyValEqF f0 p2 p = true) :
    FieldRec reg (.mk n ty false conv d) (.raw dp) (.raw p) p := by
  intro g parent s2 kvs vals0 ds0 out h1 h2 h3
  cases g with
  | zero => simp [updateField] at h3
  | succ g2 =>
    simp only [FieldDecl.name] at h1 h2
    have hcl : isCfgVal (.raw dp) = false := by cases dp <;> rfl
    have hll : isListVal (.raw dp) = false := by rw [isListVal_raw]; exact hnl
    have hstep : updateField reg (g2 + 1) true false parent s2 kvs
        (.mk n ty false conv d) (vals0, ds0) =
        .ok (aset vals0 n (.raw p2), ds0) := by
      simp [updateField, FieldDecl.name, FieldDecl.virtualCfg, FieldDecl.ty,
        h1, h2, hcl, hll, hpl]
    rw [hstep] at h3
    cases h3
    exact ⟨.raw p2, f0 + 1, by simp [FieldDecl.name], by
      rw [pyEqF_raw_raw_eq]; exact heq⟩

theorem FR_nested (reg : Registry) (n : String) (ty : FieldType)
    (virt : Bool) (conv : Option ConverterId) (d : Option CVal)
    (s1 : Schema) (sv1 xv1 : List (String × CVal))
    (doc1 : List (String × PyVal))
    (hnd : (s1.fields.map FieldDecl.name).Nodup)
    (hfr : FieldsRec reg s1.fields sv1 xv1 doc1) :
    FieldRec reg (.mk n ty virt conv d) (.cfg s1 sv1) (.cfg s1 xv1)
      (.dict doc1) := by
  intro g parent s2 kvs vals0 ds0 out h1 h2 h3
  cases g with
  | zero => simp [updateField] at h3
  | succ g2 =>
    simp only [FieldDecl.name] at h1 h2
    obtain ⟨hks, hkx, hkdoc⟩ := fieldsRec_keys reg hfr
    have hstep : updateField reg (g2 + 1) true false parent s2 kvs
        (.mk n ty virt conv d) (vals0, ds0) =
        (match configUpdate reg g2 true false
            (if parent = "" then n else parent ++ "/" ++ n) s1 sv1
            (.dict doc1) with
          | .error e => .error e
          | .ok (v2, d2) => .ok (aset vals0 n (.cfg s1 v2), ds0 ++ d2)) := by
      simp [updateField, FieldDecl.name, FieldDecl.virtualCfg, FieldDecl.ty,
        h1, h2, isCfgVal]
    rw [hstep] at h3
    cases hcu : configUpdate reg g2 true false
        (if parent = "" then n else parent ++ "/" ++ n) s1 sv1
        (.dict doc1) with
    | error e =>
      simp only [hcu] at h3
      exact Except.noConfusion h3
    | ok st0 =>
      simp only [hcu] at h3
      obtain ⟨v2, d2⟩ := st0
      cases h3
      cases g2 with
      | zero => simp [configUpdate] at hcu
      | succ g3 =>
        simp only [configUpdate] at hcu
        obtain ⟨hkeq, hpres, hpt⟩ := updLoop_recover reg hfr g3
          (if parent = "" then n else parent ++ "/" ++ n) s1 doc1 sv1 []
          (v2, d2) hnd
          (fun nd hm => alookup_of_mem_nodup doc1 nd (hkdoc ▸ hnd) hm)
          (fun nd hm => alookup_of_mem_nodup sv1 nd (hks ▸ hnd) hm)
          hcu
        have hcfg : cvalEq (.cfg s1 v2) (.cfg s1 xv1) := by
          refine cfgEq_of_pointwise s1 v2 xv1 ?_ (hkx ▸ hnd) hpt
        -- keys of v2 equal keys of xv1
          rw [hkeq, hks, hkx]
        obtain ⟨F, hF⟩ := hcfg
        exact ⟨.cfg s1 v2, F, by simp [FieldDecl.name], hF⟩

theorem listLoop_recover (reg : Registry) (es : Schema)
    (edv : List (String × CVal)) (hedv : mkDefaultFields es.fields = some edv) :
    ∀ {xs : List CVal} {docs : List PyVal}, ElemsRec reg es xs docs →
    ∀ (g2 : Nat) (gname : String) (i : Nat) (acc : List CVal) (accD : Diags)
      (out : List CVal × Diags),
    listLoop (fun i sub st =>
        match configUpdate reg g2 true false
            (gname ++ "[" ++ toString i ++ "]") es edv sub with
        | .error e => .error e
        | .ok (v2, d2) => .ok (st.1 ++ [CVal.cfg es v2], st.2 ++ d2))
      i docs (acc, accD) = .ok out →
    ∃ suffix, out.1 = acc ++ suffix ∧ suffix.length = xs.length ∧
      ∀ pr ∈ suffix.zip xs, cvalEq pr.1 pr.2 := by
  intro xs docs her
  induction her with
  | nil =>
    intro g2 gname i acc accD out hloop
    cases hloop
    exact ⟨[], by simp, rfl, fun pr hpr => absurd hpr (List.not_mem_nil pr)⟩
  | cons xv edv2 doc1 xs2 docs2 hedv2 hndup hfr her2 ih =>
    intro g2 gname i acc accD out hloop
    have hed : edv2 = edv := by
      rw [hedv] at hedv2
      exact (Option.some.inj hedv2).symm
    subst hed
    simp only [listLoop] at hloop
    cases hcu : configUpdate reg g2 true false
        (gname ++ "[" ++ toString i ++ "]") es edv2 (.dict doc1) with
    | error e =>
      simp only [hcu] at hloop
      exact Except.noConfusion hloop
    | ok st0 =>
      obtain ⟨v2, d2⟩ := st0
      simp only [hcu] at hloop
      cases g2 with
      | zero => simp [configUpdate] at hcu
      | succ g3 =>
        simp only [configUpdate] at hcu
        obtain ⟨hks, hkx, hkdoc⟩ := fieldsRec_keys reg hfr
        obtain ⟨hkeq, hpres, hpt⟩ := updLoop_recover reg hfr g3
          (gname ++ "[" ++ toString i ++ "]") es doc1 edv2 [] (v2, d2) hndup
          (fun nd hm => alookup_of_mem_nodup doc1 nd (hkdoc ▸ hndup) hm)
          (fun nd hm => alookup_of_mem_nodup edv2 nd (hks ▸ hndup) hm)
          hcu
        have hcfg : cvalEq (.cfg es v2) (.cfg es xv) :=
          cfgEq_of_pointwise es v2 xv (by rw [hkeq, hks, hkx])
            (hkx ▸ hndup) hpt
        obtain ⟨suffix, hsfx, hslen, hspt⟩ :=
          ih (g3 + 1) gname (i + 1) (acc ++ [CVal.cfg es v2]) (accD ++ d2)
            out hloop
        refine ⟨CVal.cfg es v2 :: suffix, ?_, ?_, ?_⟩
        · rw [hsfx]; simp
        · simp [hslen]
        · intro pr hpr
          rw [List.zip_cons_cons] at hpr
          rcases List.mem_cons.1 hpr with hpr | hpr
          · subst hpr; exact hcfg
          · exact hspt pr hpr

theorem parseYamlList_recover (reg : Registry) (es : Schema) :
    ∀ {xs : List CVal} {docs : List PyVal}, ElemsRec reg es xs docs →
    ∀ (g : Nat) (gname : String) (out : List CVal × Diags),
    parseYamlList reg g true false gname es docs = .ok out →
    cvalEq (.clist out.1) (.clist xs) := by
  intro xs docs her g gname out hp
  cases g with
  | zero => simp [parseYamlList] at hp
  | succ g2 =>
    cases her with
    | nil =>
      simp only [parseYamlList] at hp
      cases hp
      exact ⟨1, rfl⟩
    | cons xv edv doc1 xs2 docs2 hedv hndup hfr her2 =>
      simp only [parseYamlList] at hp
      have hmk : mkDefault es = some (.cfg es edv) := by
        simp [mkDefault, hedv]
      simp only [hmk] at hp
      obtain ⟨suffix, hsfx, hslen, hspt⟩ := listLoop_recover reg es edv hedv
        (ElemsRec.cons xv edv doc1 xs2 docs2 hedv hndup hfr her2)
        g2 gname 0 [] [] out hp
      refine clistEq_of_pointwise out.1 (CVal.cfg es xv :: xs2) ?_ ?_
      · rw [hsfx]; simpa using hslen
      · rw [hsfx]
        intro pr hpr
        exact hspt pr (by simpa using hpr)

theorem FR_list (reg : Registry) (n : String) (es : Schema)
    (conv : Option ConverterId) (d : Option CVal) (dstart : CVal)
    (xs : List CVal) (docs : List PyVal)
    (hlv : isListVal dstart = true) (hcv : isCfgVal dstart = false)
    (her : ElemsRec reg es xs docs) :
    FieldRec reg (.mk n (.fConfigList es) false conv d) dstart (.clist xs)
      (.list docs) := by
  intro g parent s2 kvs vals0 ds0 out h1 h2 h3
  cases g with
  | zero => simp [updateField] at h3
  | succ g2 =>
    simp only [FieldDecl.name] at h1 h2
    have hstep : updateField reg (g2 + 1) true false parent s2 kvs
        (.mk n (.fConfigList es) false conv d) (vals0, ds0) =
        (match parseYamlList reg g2 true false
            (if parent = "" then n else parent ++ "/" ++ n) es docs with
          | .error e => .error e
          | .ok (xs2, d2) => .ok (aset vals0 n (.clist xs2), ds0 ++ d2)) := by
      simp [updateField, FieldDecl.name, FieldDecl.virtualCfg, FieldDecl.ty,
        h1, h2, hcv, hlv, sequenceIter]
    rw [hstep] at h3
    cases hpl : parseYamlList reg g2 true false
        (if parent = "" then n else parent ++ "/" ++ n) es docs with
    | error e =>
      simp only [hpl] at h3
      exact Except.noConfusion h3
    | ok st0 =>
      obtain ⟨xs2, d2⟩ := st0
      simp only [hpl] at h3
      cases h3
      obtain ⟨F, hF⟩ := parseYamlList_recover reg es her g2
        (if parent = "" then n else parent ++ "/" ++ n) (xs2, d2) hpl
      exact ⟨.clist xs2, F, by simp [FieldDecl.name], hF⟩

theorem FR_slot_core (reg : Registry) (n : String) (ty : FieldType)
    (conv : Option ConverterId) (d : Option CVal)
    (cat : String) (req0 : Bool) (t0 : Option String) (tag : String)
    (si : Schema) (dvi xvi : List (String × CVal))
    (doc1 : List (String × PyVal))
    (htag : tag ≠ "")
    (hfc : factoryCreate reg cat (some tag) = .ok (some (.cfg si dvi), []))
    (hnd : (si.fields.map FieldDecl.name).Nodup)
    (hnt : "type" ∉ si.fields.map FieldDecl.name)
    (hfr : FieldsRec reg si.fields dvi xvi doc1) :
    ∀ (g : Nat) (parent : String) (s2 : Schema)
      (kvs : List (String × PyVal)) (vals0 : List (String × CVal))
      (ds0 : Diags) (out : List (String × CVal) × Diags),
    alookup kvs n = some (.dict (doc1 ++ [("type", .str tag)])) →
    alookup vals0 n = some (.virt cat req0 t0 none) →
    updateField reg g true false parent s2 kvs (.mk n ty true conv d)
        (vals0, ds0) = .ok out →
    ∃ v2 F, out.1 = aset vals0 n
        (.virt cat req0 (some tag) (some (.cfg si v2))) ∧
      pyEqF F (.cfg si v2) (.cfg si xvi) = true := by
  intro g parent s2 kvs vals0 ds0 out h1 h2 h3
  cases g with
  | zero => simp [updateField] at h3
  | succ g2 =>
    obtain ⟨hks, hkx, hkdoc⟩ := fieldsRec_keys reg hfr
    have hstep : updateField reg (g2 + 1) true false parent s2 kvs
        (.mk n ty true conv d) (vals0, ds0) =
        (match virtualUpdate reg g2 true false
            (if parent = "" then n else parent ++ "/" ++ n) cat req0 t0 none
            (.dict (doc1 ++ [("type", .str tag)])) with
          | .error e => .error e
          | .ok (v2, d2) => .ok (aset vals0 n v2, ds0 ++ d2)) := by
      simp [updateField, FieldDecl.name, FieldDecl.virtualCfg, h1, h2,
        isCfgVal]
    rw [hstep] at h3
    cases g2 with
    | zero => simp [virtualUpdate] at h3
    | succ g3 =>
      have hnone : alookup doc1 "type" = none :=
        alookup_eq_none_of_not_mem doc1 "type" (by rw [hkdoc]; exact hnt)
      have hlook : alookup (doc1 ++ [("type", PyVal.str tag)]) "type" =
          some (.str tag) := by
        rw [alookup_append, hnone]
        simp [alookup]
      have hvc : virtualCreate reg cat req0 t0 (some tag) true =
          .ok (some tag, some (.cfg si dvi), []) := by
        simp [virtualCreate, htag, hfc]
      obtain ⟨k0, ktl, hk0⟩ : ∃ k0 ktl,
          doc1 ++ [("type", PyVal.str tag)] = k0 :: ktl := by
        cases doc1 with
        | nil => exact ⟨_, _, rfl⟩
        | cons a b => exact ⟨_, _, rfl⟩
      rw [hk0] at hlook h3
      simp only [virtualUpdate, hlook, hvc, Option.isNone, Bool.true_or,
        Option.isSome, Bool.false_and, Bool.and_self, if_true] at h3
      cases hcu : configUpdate reg g3 true false
          (if parent = "" then n else parent ++ "/" ++ n) si dvi
          (.dict (k0 :: ktl)) with
      | error e =>
        simp only [hcu] at h3
        exact Except.noConfusion h3
      | ok st0 =>
        obtain ⟨v2, d3⟩ := st0
        simp only [hcu] at h3
        cases h3
        cases g3 with
        | zero => simp [configUpdate] at hcu
        | succ g4 =>
          simp only [configUpdate] at hcu
          have hkvs : ∀ nd ∈ doc1, alookup (k0 :: ktl) nd.1 = some nd.2 := by
            intro nd hm
            rw [← hk0]
            exact alookup_append_left _ _ _ _
              (alookup_of_mem_nodup doc1 nd (hkdoc ▸ hnd) hm)
          obtain ⟨hkeq, hpres, hpt⟩ := updLoop_recover reg hfr g4
            (if parent = "" then n else parent ++ "/" ++ n) si (k0 :: ktl)
            dvi [] (v2, d3) hnd hkvs
            (fun nd hm => alookup_of_mem_nodup dvi nd (hks ▸ hnd) hm)
            hcu
          have hcfg : cvalEq (.cfg si v2) (.cfg si xvi) :=
            cfgEq_of_pointwise si v2 xvi (by rw [hkeq, hks, hkx])
              (hkx ▸ hnd) hpt
          obtain ⟨F, hF⟩ := hcfg
          exact ⟨v2, F, rfl, hF⟩

theorem FR_slotHeld (reg : Registry) (n : String) (ty : FieldType)
    (conv : Option ConverterId) (d : Option CVal)
    (cat : String) (req0 req : Bool) (t0 : Option String) (tag : String)
    (si : Schema) (dvi xvi : List (String × CVal))
    (doc1 : List (String × PyVal))
    (htag : tag ≠ "")
    (hfc : factoryCreate reg cat (some tag) = .ok (some (.cfg si dvi), []))
    (hnd : (si.fields.map FieldDecl.name).Nodup)
    (hnt : "type" ∉ si.fields.map FieldDecl.name)
    (hfr : FieldsRec reg si.fields dvi xvi doc1) :
    FieldRec reg (.mk n ty true conv d) (.virt cat req0 t0 none)
      (.virt cat req (some tag) (some (.cfg si xvi)))
      (.dict (doc1 ++ [("type", .str tag)])) := by
  intro g parent s2 kvs vals0 ds0 out h1 h2 h3
  simp only [FieldDecl.name] at h1 h2
  obtain ⟨v2, F, hout, heq⟩ := FR_slot_core reg n ty conv d cat req0 t0 tag
    si dvi xvi doc1 htag hfc hnd hnt hfr g parent s2 kvs vals0 ds0 out
    h1 h2 h3
  have he1 : pyEqF (F + 1) (.cfg si v2)
      (.virt cat req (some tag) (some (.cfg si xvi))) = true := by
    rw [pyEqF_virtR_some_eq F (.cfg si v2) cat req (some tag)
      (.cfg si xvi) rfl]
    exact heq
  have he2 : pyEqF (F + 1 + 1)
      (.virt cat req0 (some tag) (some (.cfg si v2)))
      (.virt cat req (some tag) (some (.cfg si xvi))) = true := by
    rw [pyEqF_virtL_some_eq]
    exact he1
  exact ⟨.virt cat req0 (some tag) (some (.cfg si v2)), F + 1 + 1,
    by simpa [FieldDecl.name] using hout, he2⟩

theorem FR_slotBare (reg : Registry) (n : String) (ty : FieldType)
    (conv : Option ConverterId) (d : Option CVal)
    (cat : String) (req0 : Bool) (t0 : Option String) (tag : String)
    (si : Schema) (dvi xvi : List (String × CVal))
    (doc1 : List (String × PyVal))
    (htag : tag ≠ "")
    (hfc : factoryCreate reg cat (some tag) = .ok (some (.cfg si dvi), []))
    (hnd : (si.fields.map FieldDecl.name).Nodup)
    (hnt : "type" ∉ si.fields.map FieldDecl.name)
    (hfr : FieldsRec reg si.fields dvi xvi doc1) :
    FieldRec reg (.mk n ty true conv d) (.virt cat req0 t0 none)
      (.cfg si xvi) (.dict (doc1 ++ [("type", .str tag)])) := by
  intro g parent s2 kvs vals0 ds0 out h1 h2 h3
  simp only [FieldDecl.name] at h1 h2
  obtain ⟨v2, F, hout, heq⟩ := FR_slot_core reg n ty conv d cat req0 t0 tag
    si dvi xvi doc1 htag hfc hnd hnt hfr g parent s2 kvs vals0 ds0 out
    h1 h2 h3
  have he1 : pyEqF (F + 1)
      (.virt cat req0 (some tag) (some (.cfg si v2))) (.cfg si xvi) = true := by
    rw [pyEqF_virtL_some_eq]
    exact heq
  exact ⟨.virt cat req0 (some tag) (some (.cfg si v2)), F + 1,
    by simpa [FieldDecl.name] using hout, he1⟩

/-! ### Round-trip (C9): the dump side produces recoverable documents -/

theorem rtc_parts (reg : Registry) {s : Schema}
    {svs xvs : List (String × CVal)} (h : RTC reg s svs xvs) :
    (s.fields.map FieldDecl.name).Nodup ∧
    "type" ∉ s.fields.map FieldDecl.name ∧
    RTFs reg s.fields svs xvs := by
  cases h with
  | mk nm fds svs xvs hnd hnt hr => exact ⟨hnd, hnt, hr⟩

theorem rtac_parts (reg : Registry) {s : Schema}
    {svs xvs : List (String × CVal)} (h : RTAC reg s svs xvs) :
    (s.fields.map FieldDecl.name).Nodup ∧ RTAFs reg s.fields svs xvs := by
  cases h with
  | mk nm fds svs xvs hnd hr => exact ⟨hnd, hr⟩

/-- A successful `Config.dump` of a related instance yields its `asdict`
document extended by the optional `type` tag, with every field entry
recoverable by `update`. -/
def DumpOk (reg : Registry) (f : Nat) : Prop :=
  ∀ (addType : Bool) (s : Schema) (svs xvs vs2 : List (String × CVal))
    (d : Option PyVal),
  RTC reg s svs xvs →
  configDump reg f addType s xvs = .ok (d, vs2) →
  ∃ doc, FieldsRec reg s.fields svs xvs doc ∧
    d = some (.dict (doc ++ typeTail addType (getInfo reg s.name)))

/-- `asdict` over related field values collects to a recoverable document. -/
def AsdictFieldsOk (reg : Registry) (f : Nat) : Prop :=
  ∀ (fds : List FieldDecl) (svs xvs : List (String × CVal))
    (out : List (String × Option PyVal)),
  RTAFs reg fds svs xvs →
  asdictFields f xvs = .ok out →
  ∃ doc, collectFields out = some doc ∧ FieldsRec reg fds svs xvs doc

/-- `asdict` of a related slot-free instance is a recoverable mapping. -/
def AsdictCfgOk (reg : Registry) (f : Nat) : Prop :=
  ∀ (es : Schema) (svs xvs : List (String × CVal)) (r : Option PyVal),
  RTAC reg es svs xvs →
  asdictVal f (.cfg es xvs) = .ok r →
  ∃ doc, r = some (.dict doc) ∧ FieldsRec reg es.fields svs xvs doc

/-- `asdict` of one related field value yields a recoverable entry. -/
def AsdictValOk (reg : Registry) (f : Nat) : Prop :=
  ∀ (fd : FieldDecl) (sv xv : CVal) (r : Option PyVal),
  RTAF reg fd sv xv →
  asdictVal f xv = .ok r →
  ∃ p, r = some p ∧ FieldRec reg fd sv xv p

/-- `asdict` over related config-list elements yields recoverable
element documents. -/
def AsdictListOk (reg : Registry) (f : Nat) : Prop :=
  ∀ (es : Schema) (xs : List CVal) (r : Option (List PyVal)),
  RTL reg es xs →
  asdictList f xs = .ok r →
  ∃ docs, r = some docs ∧ ElemsRec reg es xs docs

theorem asdictFields_cons_eq2 (g : Nat) (n : String) (xvv : CVal)
    (rest : List (String × CVal)) :
    asdictFields (g + 1) ((n, xvv) :: rest) =
      match asdictVal g xvv with
      | .error e => .error e
      | .ok r =>
        match asdictFields (g + 1) rest with
        | .error e => .error e
        | .ok out => .ok ((n, r) :: out) :=
  asdictFields_cons_eq g (n, xvv) rest

theorem asdictFieldsOk_step (reg : Registry) (f : Nat)
    (IHv : ∀ g, g < f → AsdictValOk reg g) : AsdictFieldsOk reg f := by
  cases f with
  | zero =>
    intro fds svs xvs out hr h
    simp [asdictFields] at h
  | succ g =>
    intro fds
    induction fds with
    | nil =>
      intro svs xvs out hr h
      cases hr
      rw [asdictFields_nil_eq] at h
      cases h
      exact ⟨[], rfl, FieldsRec.nil⟩
    | cons fd fds2 ih =>
      intro svs xvs out hr h
      cases hr with
      | cons fd sv xv fds2 svs2 xvs2 hf hfs =>
        rw [asdictFields_cons_eq2] at h
        cases hv : asdictVal g xv with
        | error e =>
          simp only [hv] at h
          exact Except.noConfusion h
        | ok r =>
          simp only [hv] at h
          cases hrest : asdictFields (g + 1) xvs2 with
          | error e =>
            simp only [hrest] at h
            exact Except.noConfusion h
          | ok out2 =>
            simp only [hrest] at h
            cases h
            obtain ⟨p, hp, hfrec⟩ := IHv g (Nat.lt_succ_self g) fd sv xv r hf hv
            obtain ⟨doc2, hcol, hfs2⟩ := ih svs2 xvs2 out2 hfs hrest
            subst hp
            refine ⟨(fd.name, p) :: doc2, ?_, ?_⟩
            · simp [collectFields, hcol]
            · exact FieldsRec.cons fd sv xv p fds2 svs2 xvs2 doc2 hfrec hfs2

theorem asdictCfgOk_step (reg : Registry) (f : Nat)
    (IHf : ∀ g, g < f → AsdictFieldsOk reg g) : AsdictCfgOk reg f := by
  cases f with
  | zero =>
    intro es svs xvs r hr h
    simp [asdictVal] at h
  | succ g =>
    intro es svs xvs r hr h
    simp only [asdictVal] at h
    cases hfs : asdictFields g xvs with
    | error e =>
      simp only [hfs] at h
      exact Except.noConfusion h
    | ok l =>
      simp only [hfs] at h
      cases h
      obtain ⟨hnd, hafs⟩ := rtac_parts reg hr
      obtain ⟨doc, hcol, hfr⟩ :=
        IHf g (Nat.lt_succ_self g) es.fields svs xvs l hafs hfs
      exact ⟨doc, by rw [hcol]; rfl, hfr⟩

theorem asdictValOk_step (reg : Registry) (f : Nat)
    (hc : AsdictCfgOk reg f)
    (IHl : ∀ g, g < f → AsdictListOk reg g) : AsdictValOk reg f := by
  intro fd sv xv r hr h
  cases hr with
  | leaf n ty conv d dp p p2 f0 hnl hpl heq =>
    cases f with
    | zero => simp [asdictVal] at h
    | succ g =>
      simp only [asdictVal] at h
      cases h
      exact ⟨p, rfl, FR_leaf reg n ty conv d dp p p2 f0 hnl hpl heq⟩
  | nested n ty conv d s1 sv1 xv1 hac =>
    obtain ⟨doc1, hr1, hfr1⟩ := hc s1 sv1 xv1 r hac h
    obtain ⟨hnd, _⟩ := rtac_parts reg hac
    exact ⟨.dict doc1, hr1,
      FR_nested reg n ty false conv d s1 sv1 xv1 doc1 hnd hfr1⟩
  | listfld n es conv d dstart xs hlv hcv hrl =>
    cases f with
    | zero => simp [asdictVal] at h
    | succ g =>
      simp only [asdictVal] at h
      cases hal : asdictList g xs with
      | error e =>
        simp only [hal] at h
        exact Except.noConfusion h
      | ok l =>
        simp only [hal] at h
        cases h
        obtain ⟨docs, hl, her⟩ := IHl g (Nat.lt_succ_self g) es xs l hrl hal
        subst hl
        exact ⟨.list docs, rfl,
          FR_list reg n es conv d sv xs docs hlv hcv her⟩

theorem asdictListOk_step (reg : Registry) (f : Nat)
    (IHc : ∀ g, g < f → AsdictCfgOk reg g) : AsdictListOk reg f := by
  cases f with
  | zero =>
    intro es xs r hr h
    simp [asdictList] at h
  | succ g =>
    intro es xs
    induction xs with
    | nil =>
      intro r hr h
      have hz : asdictList (g + 1) ([] : List CVal) = .ok (some []) := rfl
      rw [hz] at h
      cases h
      cases hr
      exact ⟨[], rfl, ElemsRec.nil⟩
    | cons x xs2 ih =>
      intro r hr h
      cases hr with
      | cons es2 xv edv xs3 hedv hrac hrl2 =>
        have hdef : ∀ (l : List CVal), asdictList (g + 1) l =
            (match l.mapM (fun y => asdictVal g y) with
              | .error e => .error e
              | .ok l2 => .ok (l2.mapM id)) := fun l => rfl
        rw [hdef, except_mapM_cons] at h
        cases hv : asdictVal g (.cfg es xv) with
        | error e =>
          simp only [hv] at h
          exact Except.noConfusion h
        | ok r1 =>
          simp only [hv] at h
          cases hrest : List.mapM (fun y => asdictVal g y) xs2 with
          | error e =>
            simp only [hrest] at h
            exact Except.noConfusion h
          | ok l2 =>
            simp only [hrest] at h
            cases h
            obtain ⟨doc1, hr1, hfr1⟩ :=
              IHc g (Nat.lt_succ_self g) es edv xv r1 hrac hv
            have htail : asdictList (g + 1) xs2 = .ok (l2.mapM id) := by
              rw [hdef, hrest]
            obtain ⟨docs2, hd2, her2⟩ := ih (l2.mapM id) hrl2 htail
            subst hr1
            obtain ⟨hnd, _⟩ := rtac_parts reg hrac
            refine ⟨.dict doc1 :: docs2, ?_, ?_⟩
            · rw [option_mapM_cons]
              simp only [id]
              rw [hd2]
            · exact ElemsRec.cons xv edv doc1 xs2 docs2 hedv hnd hfr1 her2

theorem dumpField_cons (reg : Registry) (fL : Nat) (fd : FieldDecl)
    (n1 : String) (rb : Option PyVal) (rv : CVal)
    (b : List (String × Option PyVal)) (vs : List (String × CVal))
    (hne : fd.name ≠ n1) :
    dumpField reg fL fd ((n1, rb) :: b, (n1, rv) :: vs) =
      (dumpField reg fL fd (b, vs)).map
        (fun st => ((n1, rb) :: st.1, (n1, rv) :: st.2)) := by
  have hne2 : n1 ≠ fd.name := fun h => hne h.symm
  cases fL with
  | zero => rfl
  | succ fL2 =>
    simp only [dumpField, alookup_cons_ne _ _ _ _ hne2]
    cases hfv : alookup vs fd.name with
    | none => rfl
    | some fv =>
      cases hvc : fd.virtualCfg with
      | true =>
        cases fv with
        | virt c r t vc =>
          cases hvd : virtualDump reg fL2 c r t vc with
          | error e => simp [hvd, Except.map]
          | ok dw =>
            obtain ⟨d0, w⟩ := dw
            simp [hvd, Except.map, aset_cons_ne fd.name n1 rb d0 b hne2,
              aset_cons_ne fd.name n1 rv w vs hne2]
        | cfg s2 v2 =>
          cases hcd : configDump reg fL2 true s2 v2 with
          | error e => simp [hcd, Except.map]
          | ok dw =>
            obtain ⟨d0, v2b⟩ := dw
            simp [hcd, Except.map, aset_cons_ne fd.name n1 rb d0 b hne2,
              aset_cons_ne fd.name n1 rv (.cfg s2 v2b) vs hne2]
        | raw p => rfl
        | clist xs => rfl
      | false =>
        cases fv with
        | cfg s2 v2 =>
          cases hcd : configDump reg fL2 false s2 v2 with
          | error e => simp [hcd, Except.map]
          | ok dw =>
            obtain ⟨d0, v2b⟩ := dw
            simp [hcd, Except.map, aset_cons_ne fd.name n1 rb d0 b hne2,
              aset_cons_ne fd.name n1 rv (.cfg s2 v2b) vs hne2]
        | raw p => rfl
        | clist xs => rfl
        | virt c r t vc => rfl

theorem dumpLoop_cons (reg : Registry) (fL : Nat) :
    ∀ (fds : List FieldDecl) (n1 : String) (rb : Option PyVal) (rv : CVal)
      (b : List (String × Option PyVal)) (vs : List (String × CVal)),
    (∀ fd ∈ fds, fd.name ≠ n1) →
    updLoop (fun fd st => dumpField reg fL fd st) fds
        ((n1, rb) :: b, (n1, rv) :: vs) =
      (updLoop (fun fd st => dumpField reg fL fd st) fds (b, vs)).map
        (fun st => ((n1, rb) :: st.1, (n1, rv) :: st.2)) := by
  intro fds
  induction fds with
  | nil => intro n1 rb rv b vs h; rfl
  | cons fd fds2 ih =>
    intro n1 rb rv b vs h
    simp only [updLoop]
    rw [dumpField_cons reg fL fd n1 rb rv b vs (h fd (List.mem_cons_self _ _))]
    cases hstep : dumpField reg fL fd (b, vs) with
    | error e => simp [Except.map]
    | ok st2 =>
      obtain ⟨b2, vs2⟩ := st2
      simp only [Except.map]
      exact ih n1 rb rv b2 vs2 (fun fd2 hm => h fd2 (List.mem_cons_of_mem _ hm))

theorem dumpOk_step (reg : Registry) (f : Nat)
    (IHd : ∀ g, g < f → DumpOk reg g)
    (IHv : ∀ g, g < f → AsdictValOk reg g) : DumpOk reg f := by
  intro addType s svs xvs vs2 d hrt hdump
  cases f with
  | zero => simp [configDump] at hdump
  | succ fC =>
    simp only [configDump] at hdump
    cases hbase : asdictFields fC xvs with
    | error e => simp [hbase] at hdump
    | ok base0 =>
      simp only [hbase] at hdump
      cases hloop : updLoop (fun fd st => dumpField reg fC fd st) s.fields
          (withTypeKey addType (getInfo reg s.name) base0, xvs) with
      | error e => simp [hloop] at hdump
      | ok st2 =>
        obtain ⟨b2, vs3⟩ := st2
        simp only [hloop] at hdump
        cases hdump
        cases fC with
        | zero => simp [asdictFields] at hbase
        | succ fA =>
          obtain ⟨hnd, hnt, hrtfs⟩ := rtc_parts reg hrt
          rw [withTypeKey_eq] at hloop
          have main : ∀ (fds2 : List FieldDecl)
              (svs2 xvs2 : List (String × CVal))
              (base : List (String × Option PyVal))
              (tailM : List (String × Option PyVal))
              (out : List (String × Option PyVal) × List (String × CVal)),
            RTFs reg fds2 svs2 xvs2 →
            (fds2.map FieldDecl.name).Nodup →
            asdictFields (fA + 1) xvs2 = .ok base →
            updLoop (fun fd st => dumpField reg (fA + 1) fd st) fds2
                (base ++ tailM, xvs2) = .ok out →
            ∃ doc2, FieldsRec reg fds2 svs2 xvs2 doc2 ∧
              out.1 = doc2.map (fun nd => (nd.1, some nd.2)) ++ tailM := by
            intro fds2
            induction fds2 with
            | nil =>
              intro svs2 xvs2 base tailM out hrtfs2 hnd2 hbase2 hloop2
              cases hrtfs2
              rw [asdictFields_nil_eq] at hbase2
              cases hbase2
              cases hloop2
              exact ⟨[], FieldsRec.nil, by simp⟩
            | cons fd fds3 ih =>
              intro svs2 xvs2 base tailM out hrtfs2 hnd2 hbase2 hloop2
              cases hrtfs2 with
              | cons fd2 sv xv fds4 svs3 xvs3 hrtf hrtfs3 =>
                rw [asdictFields_cons_eq2] at hbase2
                cases hv : asdictVal fA xv with
                | error e =>
                  simp only [hv] at hbase2
                  exact Except.noConfusion hbase2
                | ok r =>
                  simp only [hv] at hbase2
                  cases hrest : asdictFields (fA + 1) xvs3 with
                  | error e =>
                    simp only [hrest] at hbase2
                    exact Except.noConfusion hbase2
                  | ok base3 =>
                    simp only [hrest] at hbase2
                    cases hbase2
                    simp only [List.map_cons, List.nodup_cons] at hnd2
                    have hnames : ∀ fd3 ∈ fds3, fd3.name ≠ fd.name := by
                      intro fd3 hm hh
                      exact hnd2.1 (hh ▸ List.mem_map_of_mem FieldDecl.name hm)
                    obtain ⟨st3, hstep, hloop3⟩ := updLoop_ok_cons _ _ _ _ _ hloop2
                    rw [List.cons_append] at hstep
                    cases hrtf with
                    | leaf n ty conv dd dp p p2 f0 hnl hpl heq =>
                      simp only [FieldDecl.name] at hstep
                      have hdf : dumpField reg (fA + 1) (.mk n ty false conv dd)
                          ((n, r) :: (base3 ++ tailM), (n, .raw p) :: xvs3) =
                          .ok ((n, r) :: (base3 ++ tailM),
                            (n, .raw p) :: xvs3) := by
                        simp [dumpField, FieldDecl.name, FieldDecl.virtualCfg,
                          alookup_cons_self]
                      rw [hdf] at hstep
                      cases hstep
                      obtain ⟨p0, hp0, hfrec⟩ := IHv fA (by omega)
                        (.mk n ty false conv dd) (.raw dp) (.raw p) r
                        (RTAF.leaf n ty conv dd dp p p2 f0 hnl hpl heq) hv
                      subst hp0
                      rw [dumpLoop_cons reg (fA + 1) fds3 n (some p0) (.raw p)
                        (base3 ++ tailM) xvs3 hnames] at hloop3
                      cases hl3 : updLoop
                          (fun fd st => dumpField reg (fA + 1) fd st) fds3
                          (base3 ++ tailM, xvs3) with
                      | error e =>
                        simp only [hl3, Except.map] at hloop3
                        exact Except.noConfusion hloop3
                      | ok out3 =>
                        simp only [hl3, Except.map] at hloop3
                        cases hloop3
                        obtain ⟨doc3, hfs3, hout3⟩ :=
                          ih svs3 xvs3 base3 tailM out3 hrtfs3 hnd2.2 hrest hl3
                        refine ⟨(n, p0) :: doc3, ?_, ?_⟩
                        · exact FieldsRec.cons (.mk n ty false conv dd)
                            (.raw dp) (.raw p) p0 fds3 svs3 xvs3 doc3 hfrec hfs3
                        · simp [hout3]
                    | nested n ty conv dd s1 sv1 xv1 hrc1 =>
                      simp only [FieldDecl.name] at hstep
                      cases hcd : configDump reg fA false s1 xv1 with
                      | error e =>
                        have hdf : dumpField reg (fA + 1)
                            (.mk n ty false conv dd)
                            ((n, r) :: (base3 ++ tailM),
                              (n, .cfg s1 xv1) :: xvs3) = .error e := by
                          simp [dumpField, FieldDecl.name,
                            FieldDecl.virtualCfg, alookup_cons_self, hcd]
                        rw [hdf] at hstep
                        exact Except.noConfusion hstep
                      | ok pr =>
                        obtain ⟨d1, v1b⟩ := pr
                        obtain ⟨doc1, hfr1, hd1⟩ := IHd fA (by omega) false
                          s1 sv1 xv1 v1b d1 hrc1 hcd
                        rw [typeTail_false, List.append_nil] at hd1
                        subst hd1
                        have hparts := rtc_parts reg hrc1
                        have hdf : dumpField reg (fA + 1)
                            (.mk n ty false conv dd)
                            ((n, r) :: (base3 ++ tailM),
                              (n, .cfg s1 xv1) :: xvs3) =
                            .ok ((n, some (.dict doc1)) :: (base3 ++ tailM),
                              (n, .cfg s1 v1b) :: xvs3) := by
                          simp [dumpField, FieldDecl.name,
                            FieldDecl.virtualCfg, alookup_cons_self, hcd,
                            aset_cons_self]
                        rw [hdf] at hstep
                        cases hstep
                        have hfrec := FR_nested reg n ty false conv dd s1
                          sv1 xv1 doc1 hparts.1 hfr1
                        rw [dumpLoop_cons reg (fA + 1) fds3 n
                          (some (.dict doc1)) (.cfg s1 v1b)
                          (base3 ++ tailM) xvs3 hnames] at hloop3
                        cases hl3 : updLoop
                            (fun fd st => dumpField reg (fA + 1) fd st) fds3
                            (base3 ++ tailM, xvs3) with
                        | error e =>
                          simp only [hl3, Except.map] at hloop3
                          exact Except.noConfusion hloop3
                        | ok out3 =>
                          simp only [hl3, Except.map] at hloop3
                          cases hloop3
                          obtain ⟨doc3, hfs3, hout3⟩ :=
                            ih svs3 xvs3 base3 tailM out3 hrtfs3 hnd2.2
                              hrest hl3
                          refine ⟨(n, .dict doc1) :: doc3, ?_, ?_⟩
                          · exact FieldsRec.cons (.mk n ty false conv dd)
                              (.cfg s1 sv1) (.cfg s1 xv1) (.dict doc1)
                              fds3 svs3 xvs3 doc3 hfrec hfs3
                          · simp [hout3]
                    | listfld n es conv dd dst xs hlv hcv hrl =>
                      simp only [FieldDecl.name] at hstep
                      have hdf : dumpField reg (fA + 1)
                          (.mk n (.fConfigList es) false conv dd)
                          ((n, r) :: (base3 ++ tailM),
                            (n, .clist xs) :: xvs3) =
                          .ok ((n, r) :: (base3 ++ tailM),
                            (n, .clist xs) :: xvs3) := by
                        simp [dumpField, FieldDecl.name, FieldDecl.virtualCfg,
                          alookup_cons_self]
                      rw [hdf] at hstep
                      cases hstep
                      obtain ⟨p0, hp0, hfrec⟩ := IHv fA (by omega)
                        (.mk n (.fConfigList es) false conv dd) sv (.clist xs)
                        r (RTAF.listfld n es conv dd sv xs hlv hcv hrl) hv
                      subst hp0
                      rw [dumpLoop_cons reg (fA + 1) fds3 n (some p0)
                        (.clist xs) (base3 ++ tailM) xvs3 hnames] at hloop3
                      cases hl3 : updLoop
                          (fun fd st => dumpField reg (fA + 1) fd st) fds3
                          (base3 ++ tailM, xvs3) with
                      | error e =>
                        simp only [hl3, Except.map] at hloop3
                        exact Except.noConfusion hloop3
                      | ok out3 =>
                        simp only [hl3, Except.map] at hloop3
                        cases hloop3
                        obtain ⟨doc3, hfs3, hout3⟩ :=
                          ih svs3 xvs3 base3 tailM out3 hrtfs3 hnd2.2 hrest hl3
                        refine ⟨(n, p0) :: doc3, ?_, ?_⟩
                        · exact FieldsRec.cons
                            (.mk n (.fConfigList es) false conv dd)
                            sv (.clist xs) p0 fds3 svs3 xvs3 doc3 hfrec hfs3
                        · simp [hout3]
                    | slotHeld n ty conv dd cat req0 t0 req tag si dvi xvi
                        htag hfc hrc1 =>
                      simp only [FieldDecl.name] at hstep
                      cases fA with
                      | zero => simp [asdictVal] at hv
                      | succ fB =>
                        cases fB with
                        | zero =>
                          have hdf : dumpField reg (0 + 1 + 1)
                              (.mk n ty true conv dd)
                              ((n, r) :: (base3 ++ tailM),
                                (n, .virt cat req (some tag)
                                  (some (.cfg si xvi))) :: xvs3) =
                              .error .fuelOut := by
                            simp [dumpField, virtualDump, virtualDumpInner,
                              FieldDecl.name, FieldDecl.virtualCfg,
                              alookup_cons_self]
                          rw [hdf] at hstep
                          exact Except.noConfusion hstep
                        | succ fD =>
                          cases hcd : configDump reg fD false si xvi with
                          | error e =>
                            have hdf : dumpField reg (fD + 1 + 1 + 1)
                                (.mk n ty true conv dd)
                                ((n, r) :: (base3 ++ tailM),
                                  (n, .virt cat req (some tag)
                                    (some (.cfg si xvi))) :: xvs3) =
                                .error e := by
                              simp [dumpField, virtualDump, virtualDumpInner,
                                FieldDecl.name, FieldDecl.virtualCfg,
                                alookup_cons_self, hcd]
                            rw [hdf] at hstep
                            exact Except.noConfusion hstep
                          | ok pr =>
                            obtain ⟨d1, vib⟩ := pr
                            obtain ⟨doc1, hfr1, hd1⟩ := IHd fD (by omega)
                              false si dvi xvi vib d1 hrc1 hcd
                            rw [typeTail_false, List.append_nil] at hd1
                            subst hd1
                            have hparts := rtc_parts reg hrc1
                            have hnone : alookup doc1 "type" = none :=
                              alookup_eq_none_of_not_mem doc1 "type"
                                (by rw [(fieldsRec_keys reg hfr1).2.2]
                                    exact hparts.2.1)
                            have hdset : dset doc1 "type" (PyVal.str tag) =
                                doc1 ++ [("type", PyVal.str tag)] := by
                              simp [dset, hnone]
                            have hdf : dumpField reg (fD + 1 + 1 + 1)
                                (.mk n ty true conv dd)
                                ((n, r) :: (base3 ++ tailM),
                                  (n, .virt cat req (some tag)
                                    (some (.cfg si xvi))) :: xvs3) =
                                .ok ((n, some (.dict (doc1 ++
                                      [("type", PyVal.str tag)]))) ::
                                    (base3 ++ tailM),
                                  (n, .virt cat req (some tag)
                                    (some (.cfg si vib))) :: xvs3) := by
                              simp [dumpField, virtualDump, virtualDumpInner,
                                FieldDecl.name, FieldDecl.virtualCfg,
                                alookup_cons_self, hcd, hdset, aset_cons_self]
                            rw [hdf] at hstep
                            cases hstep
                            have hfrec := FR_slotHeld reg n ty conv dd cat
                              req0 req t0 tag si dvi xvi doc1 htag hfc
                              hparts.1 hparts.2.1 hfr1
                            rw [dumpLoop_cons reg (fD + 1 + 1 + 1) fds3 n
                              (some (.dict (doc1 ++ [("type", PyVal.str tag)])))
                              (.virt cat req (some tag) (some (.cfg si vib)))
                              (base3 ++ tailM) xvs3 hnames] at hloop3
                            cases hl3 : updLoop
                                (fun fd st => dumpField reg (fD + 1 + 1 + 1)
                                  fd st) fds3 (base3 ++ tailM, xvs3) with
                            | error e =>
                              simp only [hl3, Except.map] at hloop3
                              exact Except.noConfusion hloop3
                            | ok out3 =>
                              simp only [hl3, Except.map] at hloop3
                              cases hloop3
                              obtain ⟨doc3, hfs3, hout3⟩ :=
                                ih svs3 xvs3 base3 tailM out3 hrtfs3 hnd2.2
                                  hrest hl3
                              refine ⟨(n, .dict (doc1 ++
                                  [("type", PyVal.str tag)])) :: doc3,
                                ?_, ?_⟩
                              · exact FieldsRec.cons (.mk n ty true conv dd)
                                  (.virt cat req0 t0 none)
                                  (.virt cat req (some tag)
                                    (some (.cfg si xvi)))
                                  (.dict (doc1 ++ [("type", PyVal.str tag)]))
                                  fds3 svs3 xvs3 doc3 hfrec hfs3
                              · simp [hout3]
                    | slotBare n ty conv dd cat cat2 req0 t0 tag s2c dv2 xv2
                        htag hgi hfc hrc1 =>
                      simp only [FieldDecl.name] at hstep
                      cases hcd : configDump reg fA true s2c xv2 with
                      | error e =>
                        have hdf : dumpField reg (fA + 1)
                            (.mk n ty true conv dd)
                            ((n, r) :: (base3 ++ tailM),
                              (n, .cfg s2c xv2) :: xvs3) = .error e := by
                          simp [dumpField, FieldDecl.name,
                            FieldDecl.virtualCfg, alookup_cons_self, hcd]
                        rw [hdf] at hstep
                        exact Except.noConfusion hstep
                      | ok pr =>
                        obtain ⟨d1, v2b⟩ := pr
                        obtain ⟨doc1, hfr1, hd1⟩ := IHd fA (by omega) true
                          s2c dv2 xv2 v2b d1 hrc1 hcd
                        rw [hgi] at hd1
                        have htt : typeTail true (some (cat2, tag)) =
                            [("type", PyVal.str tag)] := rfl
                        rw [htt] at hd1
                        subst hd1
                        have hparts := rtc_parts reg hrc1
                        have hdf : dumpField reg (fA + 1)
                            (.mk n ty true conv dd)
                            ((n, r) :: (base3 ++ tailM),
                              (n, .cfg s2c xv2) :: xvs3) =
                            .ok ((n, some (.dict (doc1 ++
                                  [("type", PyVal.str tag)]))) ::
                                (base3 ++ tailM),
                              (n, .cfg s2c v2b) :: xvs3) := by
                          simp [dumpField, FieldDecl.name,
                            FieldDecl.virtualCfg, alookup_cons_self, hcd,
                            aset_cons_self]
                        rw [hdf] at hstep
                        cases hstep
                        have hfrec := FR_slotBare reg n ty conv dd cat req0
                          t0 tag s2c dv2 xv2 doc1 htag hfc hparts.1
                          hparts.2.1 hfr1
                        rw [dumpLoop_cons reg (fA + 1) fds3 n
                          (some (.dict (doc1 ++ [("type", PyVal.str tag)])))
                          (.cfg s2c v2b) (base3 ++ tailM) xvs3 hnames]
                          at hloop3
                        cases hl3 : updLoop
                            (fun fd st => dumpField reg (fA + 1) fd st) fds3
                            (base3 ++ tailM, xvs3) with
                        | error e =>
                          simp only [hl3, Except.map] at hloop3
                          exact Except.noConfusion hloop3
                        | ok out3 =>
                          simp only [hl3, Except.map] at hloop3
                          cases hloop3
                          obtain ⟨doc3, hfs3, hout3⟩ :=
                            ih svs3 xvs3 base3 tailM out3 hrtfs3 hnd2.2
                              hrest hl3
                          refine ⟨(n, .dict (doc1 ++
                              [("type", PyVal.str tag)])) :: doc3, ?_, ?_⟩
                          · exact FieldsRec.cons (.mk n ty true conv dd)
                              (.virt cat req0 t0 none) (.cfg s2c xv2)
                              (.dict (doc1 ++ [("type", PyVal.str tag)]))
                              fds3 svs3 xvs3 doc3 hfrec hfs3
                          · simp [hout3]
          obtain ⟨doc, hfr, hout⟩ := main s.fields svs xvs base0
            ((typeTail addType (getInfo reg s.name)).map
              (fun nd => (nd.1, some nd.2))) (b2, vs2) hrtfs hnd hbase hloop
          refine ⟨doc, hfr, ?_⟩
          have hb2 : b2 = doc.map (fun nd => (nd.1, some nd.2)) ++
              (typeTail addType (getInfo reg s.name)).map
                (fun nd => (nd.1, some nd.2)) := hout
          rw [hb2, collectFields_append, collectFields_map_some,
            collectFields_map_some]
          rfl

theorem dump_master (reg : Registry) : ∀ f : Nat,
    DumpOk reg f ∧ AsdictFieldsOk reg f ∧ AsdictCfgOk reg f ∧
    AsdictValOk reg f ∧ AsdictListOk reg f := by
  intro f
  induction f using Nat.strong_induction_on with
  | _ f IH =>
    have hfld : AsdictFieldsOk reg f :=
      asdictFieldsOk_step reg f (fun g hg => (IH g hg).2.2.2.1)
    have hcfg : AsdictCfgOk reg f :=
      asdictCfgOk_step reg f (fun g hg => (IH g hg).2.1)
    have hval : AsdictValOk reg f :=
      asdictValOk_step reg f hcfg (fun g hg => (IH g hg).2.2.2.2)
    have hlist : AsdictListOk reg f :=
      asdictListOk_step reg f (fun g hg => (IH g hg).2.2.1)
    have hdmp : DumpOk reg f :=
      dumpOk_step reg f (fun g hg => (IH g hg).1)
        (fun g hg => (IH g hg).2.2.2.1)
    exact ⟨hdmp, hfld, hcfg, hval, hlist⟩

/-! ### C9: save/load round trip -/

/-- C9 (amended): save-then-load round-trip, as partial correctness.  For
an instance whose current values are related to a fresh default
construction by the recoverability relation `RTC` — each scalar leaf
re-coerces under its declared annotation to a Python-equal value, nested
instances recurse, config-list elements are slot-free instances of the
element schema, and every slot holds (or is a bare `Config` compatible
with) a registered default-constructible tag — whenever
`load(type(x), save(x))` completes, its result is Python-`==` to `x`.
The unconditional claim fails: an ill-typed scalar is re-coerced by the
strict load and comes back changed. -/
theorem claim9_save_load_round_trip (reg : Registry) (f : Nat) (s : Schema)
    (dvs xvs : List (String × CVal)) (r : CVal) (ds : Diags)
    (hdv : mkDefaultFields s.fields = some dvs)
    (hrt : RTC reg s dvs xvs)
    (hok : saveLoad reg f s xvs = .ok (r, ds)) :
    cvalEq r (.cfg s xvs) := by
  cases hdump : configDump reg f false s xvs with
  | error e =>
    simp only [saveLoad, hdump] at hok
    exact Except.noConfusion hok
  | ok pr =>
    obtain ⟨dopt, vs2⟩ := pr
    cases dopt with
    | none =>
      simp only [saveLoad, hdump] at hok
      exact Except.noConfusion hok
    | some doc =>
      simp only [saveLoad, hdump] at hok
      obtain ⟨doc0, hfr, hdoc⟩ :=
        (dump_master reg f).1 false s dvs xvs vs2 (some doc) hrt hdump
      rw [typeTail_false, List.append_nil] at hdoc
      have hdoc2 : doc = .dict doc0 := Option.some.inj hdoc
      subst hdoc2
      simp only [configLoad, hdv] at hok
      cases hcu : configUpdate reg f true false "" s dvs (.dict doc0) with
      | error e =>
        simp only [hcu] at hok
        exact Except.noConfusion hok
      | ok pr2 =>
        obtain ⟨v, d2⟩ := pr2
        simp only [hcu] at hok
        cases hok
        cases f with
        | zero => simp [configUpdate] at hcu
        | succ g =>
          simp only [configUpdate] at hcu
          obtain ⟨hnd, hnt, hrtfs⟩ := rtc_parts reg hrt
          obtain ⟨hks, hkx, hkdoc⟩ := fieldsRec_keys reg hfr
          obtain ⟨hkeq, hpres, hpt⟩ := updLoop_recover reg hfr g "" s
            doc0 dvs [] (v, ds) hnd
            (fun nd hm => alookup_of_mem_nodup doc0 nd (hkdoc ▸ hnd) hm)
            (fun nd hm => alookup_of_mem_nodup dvs nd (hks ▸ hnd) hm)
            hcu
          exact cfgEq_of_pointwise s v xvs (by rw [hkeq, hks, hkx])
            (hkx ▸ hnd) hpt

theorem pyValEqF_str_int (F : Nat) (s : String) (n : Int) :
    pyValEqF F (.str s) (.int n) = false := by
  cases F <;> rfl

theorem pyEqF_raw_str_int (F : Nat) (s : String) (n : Int) :
    pyEqF F (.raw (.str s)) (.raw (.int n)) = false := by
  cases F with
  | zero => rfl
  | succ F2 =>
    rw [pyEqF_raw_raw_eq]
    exact pyValEqF_str_int F2 s n

/-- `Foo()` holding an `int` in its `str`-annotated field `c` — Python
accepts the assignment (`foo.c = 5`); nothing in the claim's premise
rules it out (no Polymorphic Slot is involved at all). -/
def c9BadVals : List (String × CVal) :=
  [("a", .raw (.float 5)), ("b", .raw (.int 2)), ("c", .raw (.int 5))]

/-- What `load(Foo, save(x))` actually produces for `c9BadVals`: the
dumped `c: 5` is strictly re-coerced by `str(5)` to `"5"`. -/
def c9BadRes : List (String × CVal) :=
  [("a", .raw (.float 5)), ("b", .raw (.int 2)), ("c", .raw (.str "5"))]

/-- C9 counterexample: the round trip completes but `"5" == 5` is
`False` in Python, so the loaded instance differs from the saved one,
refuting the unconditional `load(type(x), save(x)) == x`. -/
theorem claim9_counterexample :
    saveLoad regT 6 fooS c9BadVals = .ok (.cfg fooS c9BadRes, []) ∧
    ∀ F, pyEqF F (.cfg fooS c9BadRes) (.cfg fooS c9BadVals) = false := by
  constructor
  · rfl
  · intro F
    cases F with
    | zero => rfl
    | succ F2 =>
      rw [pyEqF_cfg_cfg_eq]
      simp [c9BadRes, c9BadVals, pyEqF_raw_str_int]

/-- Fresh `Parent()` field values: an unresolved required slot with
default tag `foo`, and `param = -1.0`. -/
def c9Dvs : List (String × CVal) :=
  [("child", .virt "test" true (some "foo") none),
   ("param", .raw (.float (-1)))]

/-- A `Parent` whose slot is resolved to a default `Foo()` — the
repository's own `test_save_load` round-trip instance shape. -/
def c9Xvs : List (String × CVal) :=
  [("child", .virt "test" true (some "foo") (some (.cfg fooS fooD))),
   ("param", .raw (.float (-1)))]

/-- Witness for the amended C9 on the tests' `Parent`/`Foo` fixture:
the save/load round trip completes and returns a Python-equal instance,
through the slot's `type` tag and the nested `Foo` leaves. -/
theorem claim9_witness :
    cvalEq (.cfg parentS c9Xvs) (.cfg parentS c9Xvs) := by
  have hrcFoo : RTC regT fooS fooD fooD :=
    RTC.mk "Foo" _ fooD fooD (by decide) (by decide)
      (RTFs.cons (.mk "a" .fFloat false none (some (.raw (.float 5))))
        (.raw (.float 5)) (.raw (.float 5)) _ _ _
        (RTF.leaf "a" .fFloat none (some (.raw (.float 5)))
          (.float 5) (.float 5) (.float 5) 1 rfl rfl (by decide))
        (RTFs.cons (.mk "b" .fInt false none (some (.raw (.int 2))))
          (.raw (.int 2)) (.raw (.int 2)) _ _ _
          (RTF.leaf "b" .fInt none (some (.raw (.int 2)))
            (.int 2) (.int 2) (.int 2) 1 rfl rfl (by decide))
          (RTFs.cons (.mk "c" .fStr false none (some (.raw (.str "hello"))))
            (.raw (.str "hello")) (.raw (.str "hello")) _ _ _
            (RTF.leaf "c" .fStr none (some (.raw (.str "hello")))
              (.str "hello") (.str "hello") (.str "hello") 1 rfl rfl
              (by decide))
            RTFs.nil)))
  have hrt : RTC regT parentS c9Dvs c9Xvs :=
    RTC.mk "Parent" _ c9Dvs c9Xvs (by decide) (by decide)
      (RTFs.cons (.mk "child" .fAny true none
          (some (.virt "test" true (some "foo") none)))
        (.virt "test" true (some "foo") none)
        (.virt "test" true (some "foo") (some (.cfg fooS fooD))) _ _ _
        (RTF.slotHeld "child" .fAny none
          (some (.virt "test" true (some "foo") none))
          "test" true (some "foo") true "foo" fooS fooD fooD
          (by decide) rfl hrcFoo)
        (RTFs.cons (.mk "param" .fFloat false none
            (some (.raw (.float (-1)))))
          (.raw (.float (-1))) (.raw (.float (-1))) _ _ _
          (RTF.leaf "param" .fFloat none (some (.raw (.float (-1))))
            (.float (-1)) (.float (-1)) (.float (-1)) 1 rfl rfl (by decide))
          RTFs.nil))
  exact claim9_save_load_round_trip regT 8 parentS c9Dvs c9Xvs
    (.cfg parentS c9Xvs) [] rfl hrt rfl

end SparkCfg
